import Mathlib

/-!
Verification development for the FacePass core: a shallow embedding of the
frame-to-frame tracker (`ai/tracker/bot_sort.py`, `ai/tracker/matching.py`),
the LRU embedding cache (`ai/recognizer/embedding_cache.py`), the engagement
classifier (`behavior/engagement.py`) and the identity-lock / confidence
smoothing / attendance-dedup state machine of `ai/pipeline.py`
(`FacePipeline.process`), together with theorems about the behaviour those
modules exhibit.

Conventions of the embedding:
* Python floats are modelled as rationals (`ℚ`); Python ints as `ℤ`/`ℕ`.
* External collaborators (detector, embedding extractor, similarity search,
  pose estimator, attendance HTTP call) are oracles passed in as data; a
  collaborator that may raise is modelled with `Except Unit`.
* Mutation is modelled by explicit state passing; an exception escaping a
  region is modelled by a `raised` result that carries the state as mutated
  so far (Python mutations performed before a raise persist).
-/

namespace FacePass

/-- Axis-aligned box in pixel coordinates `(x1, y1, x2, y2)`. -/
structure Box where
  x1 : ℤ
  y1 : ℤ
  x2 : ℤ
  y2 : ℤ
deriving DecidableEq, Repr, Inhabited

/-- Embedding vector (`np.ndarray` of floats); its entries are opaque to the
core logic, which only ever hands it to the similarity-search collaborator. -/
abbrev Emb := List ℚ

/-- The slice of `configs/settings.py` consumed by the embedded modules. -/
structure Settings where
  embed_interval : ℤ
  sim_threshold : ℚ
  yaw_threshold : ℚ
  pitch_threshold : ℚ
deriving Repr

/-- Default settings values from `configs/settings.py`:
`embed_interval = 15`, `sim_threshold = 0.45`, `yaw_threshold = 20.0`,
`pitch_threshold = -10.0`. -/
def settings : Settings :=
  { embed_interval := 15
    sim_threshold := 45/100
    yaw_threshold := 20
    pitch_threshold := -10 }

/-- Python `round` to an integer: round half to even (banker's rounding). -/
def pyRoundInt (x : ℚ) : ℤ :=
  let f := ⌊x⌋
  let r := x - f
  if r < 1/2 then f
  else if 1/2 < r then f + 1
  else if f % 2 = 0 then f else f + 1

/-- Python `round(x, n)` on a rational. -/
def pyRound (x : ℚ) (n : ℕ) : ℚ :=
  (pyRoundInt (x * 10 ^ n) : ℚ) / 10 ^ n

/-- The `Track` entity (`ai/types.py` dataclass, plus the attributes that
`FacePipeline.process` attaches dynamically: `locked_id`, `locked_conf`,
`unknown_logged`, `last_seen_frame`).  A `locked_id` of `none` covers both
"attribute missing" and "attribute set to `None`", which the code treats
identically (`hasattr(t, "locked_id") and t.locked_id is not None`). -/
structure Track where
  track_id : ℕ
  bbox : Box
  last_seen : ℚ
  embedding : Option Emb := none
  last_embed_frame : ℤ := 0
  locked_id : Option ℤ := none
  locked_conf : Option ℚ := none
  unknown_logged : Bool := false
  last_seen_frame : ℤ := 0
deriving DecidableEq, Repr

instance : Inhabited Track :=
  ⟨{ track_id := 0, bbox := default, last_seen := 0 }⟩

/-! ## Embedding cache (`ai/recognizer/embedding_cache.py`)

The Python implementation is an `OrderedDict` used as an LRU map: the front
of the insertion order is the least recently used entry, the back the most
recently used one.  We model it as a list of key-value pairs in that order. -/

/-- LRU embedding cache state; `cache` is ordered least-recent first. -/
structure EmbeddingCache where
  cache : List (ℕ × Emb)
  max_size : ℕ := 256
deriving DecidableEq, Repr

/-- Method `EmbeddingCache.set`: store (or refresh) an embedding for `track_id`.
A present key is moved to the most-recent end (`move_to_end`) and its value
replaced; then, if the size exceeds `max_size`, the least-recently-used
entry (front) is evicted (`popitem(last=False)`). -/
def EmbeddingCache.set (c : EmbeddingCache) (track_id : ℕ) (embedding : Emb) :
    EmbeddingCache :=
  let l := c.cache.filter (fun kv => kv.1 != track_id) ++ [(track_id, embedding)]
  if c.max_size < l.length then { c with cache := l.drop 1 }
  else { c with cache := l }

/-- Method `EmbeddingCache.get`: return the cached embedding for `track_id` or
`none`; a hit refreshes the entry's LRU position (`move_to_end`). -/
def EmbeddingCache.get (c : EmbeddingCache) (track_id : ℕ) :
    EmbeddingCache × Option Emb :=
  match c.cache.lookup track_id with
  | none => (c, none)
  | some e =>
      ({ c with cache := c.cache.filter (fun kv => kv.1 != track_id) ++ [(track_id, e)] },
       some e)

/-- Method `EmbeddingCache.remove`: explicitly drop a track's cache entry. -/
def EmbeddingCache.remove (c : EmbeddingCache) (track_id : ℕ) : EmbeddingCache :=
  { c with cache := c.cache.filter (fun kv => kv.1 != track_id) }

/-- Fold `set` over a list of keys, with values supplied by `v`. -/
def EmbeddingCache.setAll (c : EmbeddingCache) (ks : List ℕ) (v : ℕ → Emb) :
    EmbeddingCache :=
  ks.foldl (fun c k => c.set k (v k)) c

/-! ## Engagement classifier (`behavior/engagement.py`) -/

/-- Function `compute_engagement(pitch, yaw)`: classify engagement from head pose.
Thresholds are `_YAW_HIGH = yaw_threshold`, `_YAW_MEDIUM = yaw_threshold*1.5`,
`_PITCH_HIGH = pitch_threshold`, `_PITCH_MEDIUM = pitch_threshold*1.5`. -/
def compute_engagement (pitch yaw : ℚ) : String :=
  if settings.yaw_threshold * (3/2) < |yaw| ∨ pitch < settings.pitch_threshold * (3/2) then
    "low"
  else if settings.yaw_threshold < |yaw| ∨ pitch < settings.pitch_threshold then
    "medium"
  else
    "high"

/-! ## Associator (`ai/tracker/matching.py`) -/

/-- Function `iou(a, b)`: intersection-over-union of two axis-aligned boxes, with
`1e-6` added to the denominator (`inter / (areaA + areaB - inter + 1e-6)`). -/
def iou (a b : Box) : ℚ :=
  let xA := max a.x1 b.x1
  let yA := max a.y1 b.y1
  let xB := min a.x2 b.x2
  let yB := min a.y2 b.y2
  let inter : ℤ := max 0 (xB - xA) * max 0 (yB - yA)
  let areaA : ℤ := (a.x2 - a.x1) * (a.y2 - a.y1)
  let areaB : ℤ := (b.x2 - b.x1) * (b.y2 - b.y1)
  (inter : ℚ) / ((areaA : ℚ) + (areaB : ℚ) - (inter : ℚ) + 1/1000000)

/-- Entry `(i, j)` of the cost matrix built by `associate`:
`cost[i, j] = 1 - iou(tracks[i].bbox, detections[j])`. -/
def costOf (tracks : List Track) (detections : List Box) (rc : ℕ × ℕ) : ℚ :=
  1 - iou (tracks.getD rc.1 default).bbox (detections.getD rc.2 default)

/-- Total cost of an assignment (a list of `(row, column)` pairs). -/
def totalCost (cost : ℕ × ℕ → ℚ) (assignment : List (ℕ × ℕ)) : ℚ :=
  (assignment.map cost).sum

/-- All maximal assignments of an `n × m` cost matrix: pick
`k = min n m` rows in increasing order and pair them with `k` distinct
columns in every possible order. -/
def assignmentCandidates (n m : ℕ) : List (List (ℕ × ℕ)) :=
  let k := min n m
  ((List.range n).sublistsLen k).flatMap fun rs =>
    ((List.range m).sublistsLen k).flatMap fun cs =>
      cs.permutations'.map fun cs' => rs.zip cs'

/-- First element of a list minimizing `f`, or `none` for the empty list. -/
def minBy (f : α → ℚ) : List α → Option α
  | [] => none
  | x :: xs => some (xs.foldl (fun b a => if f a < f b then a else b) x)

/-- Model of the external collaborator `scipy.optimize.linear_sum_assignment`
by its documented contract: it returns a maximal assignment of rows to
columns minimizing the total cost (tie-breaking among minimizers is
implementation defined; the model picks the first minimizer in the
enumeration order of `assignmentCandidates`). -/
def linear_sum_assignment (cost : ℕ × ℕ → ℚ) (n m : ℕ) : List (ℕ × ℕ) :=
  (minBy (totalCost cost) (assignmentCandidates n m)).getD []

/-- Function `associate(tracks, detections)`: build the `1 - iou` cost matrix and
solve the rectangular assignment problem over it. -/
def associate (tracks : List Track) (detections : List Box) : List (ℕ × ℕ) :=
  linear_sum_assignment (costOf tracks detections) tracks.length detections.length

/-! ## Tracker (`ai/tracker/bot_sort.py`) -/

/-- State of `BoTSORT`: the Track Store and the next fresh `track_id`. -/
structure TrackerState where
  tracks : List Track
  next_id : ℕ
deriving DecidableEq, Repr

/-- Initial `BoTSORT` state (`__init__`): empty store, ids from 0. -/
def initTracker : TrackerState := { tracks := [], next_id := 0 }

/-- Constructor call `Track(track_id, bbox, now)` as performed by `BoTSORT.update`. -/
def mkTrack (track_id : ℕ) (bbox : Box) (now : ℚ) : Track :=
  { track_id := track_id, bbox := bbox, last_seen := now }

/-- Spawn one new track per detection, with consecutive fresh ids. -/
def spawnTracks (now : ℚ) : ℕ → List Box → List Track
  | _, [] => []
  | n, d :: ds => mkTrack n d now :: spawnTracks now (n + 1) ds

/-- Method `BoTSORT.update(detections)`: if the store is empty, every detection
spawns a new track.  Otherwise `associate` pairs rows (tracks) with columns
(detections); each paired track is updated in place (`bbox`, `last_seen`)
and kept, each unclaimed detection spawns a new track, and the store is
replaced by exactly those tracks — an unpaired old track is not carried
over. -/
def BoTSORT.update (st : TrackerState) (detections : List Box) (now : ℚ) :
    TrackerState :=
  match st.tracks with
  | [] =>
      { tracks := spawnTracks now st.next_id detections
        next_id := st.next_id + detections.length }
  | _ :: _ =>
      let pairs := associate st.tracks detections
      let updated := pairs.filterMap fun rc =>
        match st.tracks.get? rc.1, detections.get? rc.2 with
        | some t, some d => some { t with bbox := d, last_seen := now }
        | _, _ => none
      let used := pairs.map Prod.snd
      let unclaimed := (detections.enum.filter fun p => !(used.contains p.1)).map Prod.snd
      { tracks := updated ++ spawnTracks now st.next_id unclaimed
        next_id := st.next_id + unclaimed.length }

/-! ## Frame pipeline (`ai/pipeline.py`, `FacePipeline.process`)

External collaborators are oracles.  A collaborator whose Python call can
raise an unexpected exception is modelled with `Except Unit`; the attendance
HTTP call has its own `try/except` in the source, so its outcome (including
a raised exception) is absorbed locally and modelled by `AttResp`. -/

/-- Result of `cosine_search` (`storage/vector_search.py`): nearest
`student_id` and its cosine distance `d`. -/
structure SearchRes where
  student_id : ℤ
  d : ℚ
deriving DecidableEq, Repr

/-- Outcome of the `requests.post` attendance call: an HTTP status code, or
an exception (caught by the inner `try/except`). -/
inductive AttResp
  | status (code : ℕ)
  | exn
deriving DecidableEq, Repr

/-- Per-track collaborator oracle for one frame: embedding extraction on a
crop, similarity search on a vector, the attendance call per student id,
and pose estimation on a crop. -/
structure TrackOracle where
  embedRes : Box → Except Unit (Option Emb)
  searchRes : Emb → Except Unit (Option SearchRes)
  attendance : ℤ → AttResp
  poseRes : Box → Except Unit (ℚ × ℚ × ℚ)

/-- The `FacePipeline` per-frame mutable state apart from the tracker:
frame counter, attendance-dedup set, confidence-history map (a `track_id`
with no entry is represented by `[]`, which the code's
`setdefault(track_id, [])` makes observationally identical), and the
embedding cache. -/
structure PipeState where
  frame_id : ℤ
  marked_attendance : Finset ℤ
  track_history : ℕ → List ℚ
  cache : EmbeddingCache

/-- Initial `FacePipeline` per-frame state (`__init__`). -/
def initPipe : PipeState :=
  { frame_id := 0
    marked_attendance := ∅
    track_history := fun _ => []
    cache := { cache := [], max_size := 256 } }

/-- One element of the list returned by `process`. -/
structure OutputRec where
  track_id : ℕ
  bbox : Box
  student_id : Option ℤ
  confidence : Option ℚ
  status : String
  pitch : ℚ
  yaw : ℚ
  roll : ℚ
  engagement : String
deriving DecidableEq, Repr

/-- The padded, frame-clamped face crop (`pad = 30`) of Stage 3. -/
def clampCrop (frame_h frame_w : ℤ) (b : Box) : Box :=
  { x1 := max 0 (b.x1 - 30)
    y1 := max 0 (b.y1 - 30)
    x2 := min frame_w (b.x2 + 30)
    y2 := min frame_h (b.y2 + 30) }

/-- Python `history.append(raw)` followed by `if len(history) > 5: history.pop(0)`. -/
def histAppend (history : List ℚ) (raw : ℚ) : List ℚ :=
  let h := history ++ [raw]
  if 5 < h.length then h.drop 1 else h

/-- Stage 3 (re-embedding gate, `pipeline.py` lines 135-140): when
`frame_id - last_embed_frame >= embed_interval`, call the extractor; on a
vector, store it in the cache and on the track and advance
`last_embed_frame`; on `None`, change nothing.  An extractor exception
escapes (`.error`), carrying the state as already mutated. -/
def stage3Embed (o : TrackOracle) (crop : Box) (s : PipeState) (t : Track) :
    Except (PipeState × Track) (PipeState × Track) :=
  if settings.embed_interval ≤ s.frame_id - t.last_embed_frame then
    match o.embedRes crop with
    | .error _ => .error (s, t)
    | .ok none => .ok (s, t)
    | .ok (some e) =>
        .ok ({ s with cache := s.cache.set t.track_id e },
             { t with embedding := some e, last_embed_frame := s.frame_id })
  else
    .ok (s, t)

/-- Result of Stage 4 for one track: updated state and track, the values
bound to `student_id`, `confidence`, `status`, and the identity for which
the attendance HTTP call was issued this step (if any). -/
structure Stage4Out where
  s : PipeState
  t : Track
  student_id : Option ℤ
  confidence : Option ℚ
  status : String
  attCalled : Option ℤ

/-- Stage 4 (identity matching, `pipeline.py` lines 144-208).  Locked
branch: with an embedding, re-validate by searching; `None` or a distance
above `sim_threshold` drops the lock, otherwise the locked identity and
stored confidence are reported unchanged; with no embedding the locked
identity is reported unchanged.  Unlocked branch: with an embedding, a
within-threshold match appends `1 - d` to the bounded history, reports the
rounded mean, locks, and — when the identity is not in the dedup set —
issues the attendance call, adding the identity to the set only on status
200 or 409; no match or an above-threshold match reports unknown and sets
`unknown_logged` once. -/
def stage4Identity (o : TrackOracle) (s : PipeState) (t : Track) :
    Except (PipeState × Track) Stage4Out :=
  match t.locked_id with
  | some lid =>
      match t.embedding with
      | some e =>
          match o.searchRes e with
          | .error _ => .error (s, t)
          | .ok none =>
              .ok ⟨s, { t with locked_id := none, locked_conf := none },
                   none, none, "unknown", none⟩
          | .ok (some m) =>
              if settings.sim_threshold < m.d then
                .ok ⟨s, { t with locked_id := none, locked_conf := none },
                     none, none, "unknown", none⟩
              else
                .ok ⟨s, t, some lid, t.locked_conf, "recognized", none⟩
      | none => .ok ⟨s, t, some lid, t.locked_conf, "recognized", none⟩
  | none =>
      match t.embedding with
      | none => .ok ⟨s, t, none, none, "unknown", none⟩
      | some e =>
          match o.searchRes e with
          | .error _ => .error (s, t)
          | .ok mres =>
              match mres with
              | some m =>
                  if m.d ≤ settings.sim_threshold then
                    let raw : ℚ := 1 - m.d
                    let hist := histAppend (s.track_history t.track_id) raw
                    let conf := pyRound (hist.sum / (hist.length : ℚ)) 4
                    let s1 := { s with
                      track_history := Function.update s.track_history t.track_id hist }
                    let t1 := { t with
                      locked_id := some m.student_id, locked_conf := some conf }
                    if m.student_id ∈ s1.marked_attendance then
                      .ok ⟨s1, t1, some m.student_id, some conf, "recognized", none⟩
                    else
                      match o.attendance m.student_id with
                      | .status 200 =>
                          .ok ⟨{ s1 with
                                 marked_attendance := insert m.student_id s1.marked_attendance },
                               t1, some m.student_id, some conf, "recognized",
                               some m.student_id⟩
                      | .status 409 =>
                          .ok ⟨{ s1 with
                                 marked_attendance := insert m.student_id s1.marked_attendance },
                               t1, some m.student_id, some conf, "recognized",
                               some m.student_id⟩
                      | _ =>
                          .ok ⟨s1, t1, some m.student_id, some conf, "recognized",
                               some m.student_id⟩
                  else
                    .ok ⟨s, (if t.unknown_logged then t else { t with unknown_logged := true }),
                         none, none, "unknown", none⟩
              | none =>
                  .ok ⟨s, (if t.unknown_logged then t else { t with unknown_logged := true }),
                       none, none, "unknown", none⟩

/-- Result of processing one track for one frame: the state and track as
mutated, the output record (absent when the degenerate-bbox guard skipped
the track), the attendance call issued (if any), and — for `raised` — the
fact that a collaborator exception escaped. -/
inductive StepRes
  | ok (s : PipeState) (t : Track) (out : Option OutputRec) (attCalled : Option ℤ)
  | raised (s : PipeState) (t : Track) (attCalled : Option ℤ)

/-- State component of a step result. -/
def StepRes.state : StepRes → PipeState
  | .ok s _ _ _ => s
  | .raised s _ _ => s

/-- Track component of a step result. -/
def StepRes.track : StepRes → Track
  | .ok _ t _ _ => t
  | .raised _ t _ => t

/-- Output record of a step result (`none` if skipped or raised). -/
def StepRes.output : StepRes → Option OutputRec
  | .ok _ _ out _ => out
  | .raised _ _ _ => none

/-- Attendance call issued during a step result. -/
def StepRes.att : StepRes → Option ℤ
  | .ok _ _ _ a => a
  | .raised _ _ a => a

/-- Whether the step ended in an escaped exception. -/
def StepRes.didRaise : StepRes → Bool
  | .ok _ _ _ _ => false
  | .raised _ _ _ => true

/-- The per-track body of the loop in `process` (`pipeline.py` lines
108-228): stamp `last_seen_frame`, skip degenerate boxes, then Stage 3
(gated re-embedding), Stage 4 (identity matching) and Stage 5 (pose and
engagement on the padded crop), assembling one output record. -/
def stepTrack (frame_h frame_w : ℤ) (o : TrackOracle) (s0 : PipeState) (t0 : Track) :
    StepRes :=
  let t1 := { t0 with last_seen_frame := s0.frame_id }
  if t1.bbox.x2 ≤ t1.bbox.x1 ∨ t1.bbox.y2 ≤ t1.bbox.y1 then
    .ok s0 t1 none none
  else
    let crop := clampCrop frame_h frame_w t1.bbox
    match stage3Embed o crop s0 t1 with
    | .error (s, t) => .raised s t none
    | .ok (s2, t2) =>
        match stage4Identity o s2 t2 with
        | .error (s, t) => .raised s t none
        | .ok r =>
            match o.poseRes crop with
            | .error _ => .raised r.s r.t r.attCalled
            | .ok (p, yw, rl) =>
                .ok r.s r.t
                  (some
                    { track_id := r.t.track_id
                      bbox := r.t.bbox
                      student_id := r.student_id
                      confidence := r.confidence
                      status := r.status
                      pitch := pyRound p 2
                      yaw := pyRound yw 2
                      roll := pyRound rl 2
                      engagement := compute_engagement p yw })
                  r.attCalled

/-- One frame of `process` restricted to a single track: the frame counter
is incremented and then the track goes through the per-track loop body.
This models consecutive calls to `process` during which the tracker keeps
returning this one track. -/
def stepFrame (frame_h frame_w : ℤ) (o : TrackOracle) (s : PipeState) (t : Track) :
    StepRes :=
  stepTrack frame_h frame_w o { s with frame_id := s.frame_id + 1 } t

/-- Iterate `stepFrame` over a list of per-frame oracles, collecting each
frame's output record for the track; iteration stops if a frame raises. -/
def runTrackFrames (frame_h frame_w : ℤ) :
    List TrackOracle → PipeState → Track → PipeState × Track × List (Option OutputRec)
  | [], s, t => (s, t, [])
  | o :: os, s, t =>
      match stepFrame frame_h frame_w o s t with
      | .raised s' t' _ => (s', t', [])
      | .ok s' t' out _ =>
          let r := runTrackFrames frame_h frame_w os s' t'
          (r.1, r.2.1, out :: r.2.2)

/-- Collaborator oracle for one whole frame: the detector result, the
wall-clock time passed to the tracker, and one per-track oracle per loop
iteration. -/
structure FrameOracle where
  now : ℚ
  detect : Except Unit (List Box)
  perTrack : ℕ → TrackOracle

/-- Complete `FacePipeline` state. -/
structure FullState where
  tracker : TrackerState
  pipe : PipeState

/-- The per-frame track loop: threads the pipeline state through
`stepTrack` for each track.  On a raise the remaining tracks keep their
pre-loop values (the Python loop stops mid-list), the outputs gathered so
far are reported together with the raise flag, and the attendance calls
already issued are kept (those HTTP calls did happen). -/
def processTracks (frame_h frame_w : ℤ) (oT : ℕ → TrackOracle) :
    PipeState → List Track → ℕ →
    PipeState × List Track × List OutputRec × List ℤ × Bool
  | s, [], _ => (s, [], [], [], false)
  | s, t :: ts, i =>
      match stepTrack frame_h frame_w (oT i) s t with
      | .raised s' t' att => (s', t' :: ts, [], att.toList, true)
      | .ok s' t' out att =>
          let r := processTracks frame_h frame_w oT s' ts (i + 1)
          (r.1, t' :: r.2.1, out.toList ++ r.2.2.1, att.toList ++ r.2.2.2.1, r.2.2.2.2)

/-- The body of `process` inside its `try`: bump the frame counter, detect,
update the tracker, run the per-track loop and finally prune
confidence-history entries for vanished tracks.  The `Bool` records whether
an unexpected exception escaped the body (in which case pruning did not
run and the outputs computed so far are reported for the wrapper to
discard). -/
def processBody (frame_h frame_w : ℤ) (o : FrameOracle) (st : FullState) :
    FullState × List OutputRec × List ℤ × Bool :=
  let s0 := { st.pipe with frame_id := st.pipe.frame_id + 1 }
  match o.detect with
  | .error _ => ({ st with pipe := s0 }, [], [], true)
  | .ok dets =>
      let trk := BoTSORT.update st.tracker dets o.now
      let r := processTracks frame_h frame_w o.perTrack s0 trk.tracks 0
      let s1 := r.1
      let tracks' := r.2.1
      if r.2.2.2.2 then
        ({ tracker := { trk with tracks := tracks' }, pipe := s1 }, r.2.2.1, r.2.2.2.1, true)
      else
        let s2 := { s1 with track_history := fun tid =>
          if (tracks'.any fun t => t.track_id == tid) then s1.track_history tid else [] }
        ({ tracker := { trk with tracks := tracks' }, pipe := s2 }, r.2.2.1, r.2.2.2.1, false)

/-- Method `FacePipeline.process`: the body runs inside `try/except Exception`; a
raised exception is logged and the frame degrades to an empty result list,
with the state left exactly as the body mutated it. -/
def process (frame_h frame_w : ℤ) (o : FrameOracle) (st : FullState) :
    FullState × List OutputRec × List ℤ :=
  let r := processBody frame_h frame_w o st
  if r.2.2.2 then (r.1, [], r.2.2.1) else (r.1, r.2.1, r.2.2.1)

/-- A per-track oracle none of whose collaborators raises. -/
def TrackOracle.NoRaise (o : TrackOracle) : Prop :=
  (∀ b, ∃ r, o.embedRes b = .ok r) ∧
  (∀ e, ∃ r, o.searchRes e = .ok r) ∧
  (∀ b, ∃ p, o.poseRes b = .ok p)

/-- A frame oracle none of whose collaborators raises. -/
def FrameOracle.NoRaise (o : FrameOracle) : Prop :=
  (∃ d, o.detect = .ok d) ∧ ∀ i, (o.perTrack i).NoRaise

/-! ## Concrete scenario data used by witnesses and counterexamples -/

/-- A per-track oracle whose search always matches student 7 at distance
`d`, whose embedding extraction returns absent, and whose attendance call
raises. -/
def scnOracle (d : ℚ) : TrackOracle :=
  { embedRes := fun _ => Except.ok none
    searchRes := fun _ => Except.ok (some ⟨7, d⟩)
    attendance := fun _ => AttResp.exn
    poseRes := fun _ => Except.ok (0, 0, 0) }

/-- Fresh pipeline state (frame counter 0, nothing marked or cached). -/
def scnState : PipeState :=
  { frame_id := 0
    marked_attendance := ∅
    track_history := fun _ => []
    cache := ⟨[], 256⟩ }

/-- An unlocked track with an embedding already computed at frame 1. -/
def scnTrack : Track :=
  { track_id := 0, bbox := ⟨0, 0, 10, 10⟩, last_seen := 0, embedding := some [1]
    last_embed_frame := 1 }

/-! ## Theorems

General-purpose helper lemmas first, then one theorem per claim (with a
closed witness for each theorem that carries hypotheses). -/

theorem lookup_eq_none_of_not_fst {β : Type} (k : ℕ) (l : List (ℕ × β))
    (h : k ∉ l.map Prod.fst) : l.lookup k = none := by
  induction l with
  | nil => rfl
  | cons kv tl ih =>
      simp only [List.map_cons, List.mem_cons, not_or] at h
      obtain ⟨a, b⟩ := kv
      have hne : (k == a) = false := beq_eq_false_iff_ne.mpr h.1
      simpa [List.lookup, hne] using ih h.2

theorem filter_ne_of_not_mem_fst {β : Type} (k : ℕ) (l : List (ℕ × β))
    (h : k ∉ l.map Prod.fst) : l.filter (fun kv => kv.1 != k) = l := by
  apply List.filter_eq_self.mpr
  intro kv hkv
  exact bne_iff_ne.mpr fun hEq => h (hEq ▸ List.mem_map_of_mem Prod.fst hkv)

theorem map_fst_pairs (v : ℕ → Emb) (l : List ℕ) :
    (l.map fun k => (k, v k)).map Prod.fst = l := by
  induction l with
  | nil => rfl
  | cons a t ih => simp [ih]

theorem set_fresh_no_evict (c : EmbeddingCache) (k : ℕ) (e : Emb)
    (hk : k ∉ c.cache.map Prod.fst) (hlen : c.cache.length + 1 ≤ c.max_size) :
    c.set k e = { c with cache := c.cache ++ [(k, e)] } := by
  unfold EmbeddingCache.set
  rw [filter_ne_of_not_mem_fst k c.cache hk]
  have hno : ¬ (c.max_size < (c.cache ++ [(k, e)]).length) := by
    simp only [List.length_append, List.length_cons, List.length_nil]
    omega
  rw [if_neg hno]

theorem setAll_fresh (ks : List ℕ) : ∀ (c : EmbeddingCache) (v : ℕ → Emb),
    ks.Nodup → (∀ k ∈ ks, k ∉ c.cache.map Prod.fst) →
    c.cache.length + ks.length ≤ c.max_size →
    c.setAll ks v = { c with cache := c.cache ++ ks.map fun k => (k, v k) } := by
  induction ks with
  | nil => intro c v _ _ _; simp [EmbeddingCache.setAll]
  | cons k ks ih =>
      intro c v hnd hfresh hlen
      have hk : k ∉ c.cache.map Prod.fst := hfresh k (List.mem_cons_self k ks)
      have hstep : c.set k (v k) = { c with cache := c.cache ++ [(k, v k)] } := by
        apply set_fresh_no_evict
        · exact hk
        · simp only [List.length_cons] at hlen; omega
      have hnd' : ks.Nodup := (List.nodup_cons.mp hnd).2
      have hknotin : k ∉ ks := (List.nodup_cons.mp hnd).1
      have : EmbeddingCache.setAll c (k :: ks) v
          = EmbeddingCache.setAll { c with cache := c.cache ++ [(k, v k)] } ks v := by
        simp only [EmbeddingCache.setAll, List.foldl_cons, hstep]
      rw [this, ih]
      · simp
      · exact hnd'
      · intro k' hk'
        simp only [List.map_append, List.map_cons, List.map_nil, List.mem_append,
          List.mem_cons, List.not_mem_nil, or_false, not_or]
        exact ⟨fun hmem => hfresh k' (List.mem_cons_of_mem k hk') hmem,
               fun hEq => hknotin (hEq ▸ hk')⟩
      · simp only [List.length_append, List.length_cons, List.length_nil]
        simp only [List.length_cons] at hlen
        omega

theorem setAll_overflow (ks : List ℕ) (v : ℕ → Emb) (C : ℕ)
    (hnd : ks.Nodup) (hlen : ks.length = C + 1) :
    (EmbeddingCache.setAll ⟨[], C⟩ ks v).cache = ks.tail.map fun k => (k, v k) := by
  have hne : ks ≠ [] := by
    intro h; rw [h] at hlen; simp at hlen
  have hsplit : ks.dropLast ++ [ks.getLast hne] = ks :=
    List.dropLast_append_getLast hne
  have hndsplit := hnd
  rw [← hsplit] at hndsplit
  have hfresh : ks.getLast hne ∉ ks.dropLast := by
    rcases List.nodup_append.mp hndsplit with ⟨-, -, hdisj⟩
    intro hmem
    exact hdisj hmem (List.mem_singleton_self _)
  have hfill : EmbeddingCache.setAll ⟨[], C⟩ ks.dropLast v
      = ⟨ks.dropLast.map fun k => (k, v k), C⟩ := by
    have h := setAll_fresh ks.dropLast ⟨[], C⟩ v
      ((List.dropLast_sublist ks).nodup hnd)
      (by intro k _; simp)
      (by simp [List.length_dropLast, hlen])
    simpa using h
  have hstep : EmbeddingCache.setAll ⟨[], C⟩ ks v
      = (EmbeddingCache.setAll ⟨[], C⟩ ks.dropLast v).set (ks.getLast hne)
          (v (ks.getLast hne)) := by
    conv_lhs => rw [← hsplit]
    simp [EmbeddingCache.setAll, List.foldl_append]
  have hfstmap : (ks.dropLast.map fun k => (k, v k)).map Prod.fst = ks.dropLast :=
    map_fst_pairs v ks.dropLast
  rw [hstep, hfill]
  unfold EmbeddingCache.set
  rw [show (List.filter (fun kv => kv.1 != ks.getLast hne)
        (ks.dropLast.map fun k => (k, v k))) = ks.dropLast.map fun k => (k, v k) from
    filter_ne_of_not_mem_fst _ _ (by rw [hfstmap]; exact hfresh)]
  have hlenfull : ((ks.dropLast.map fun k => (k, v k))
      ++ [(ks.getLast hne, v (ks.getLast hne))]).length = C + 1 := by
    simp [List.length_dropLast, hlen]
  have hgt : C < ((ks.dropLast.map fun k => (k, v k))
      ++ [(ks.getLast hne, v (ks.getLast hne))]).length := by
    rw [hlenfull]; omega
  rw [if_pos hgt]
  have hjoin : (ks.dropLast.map fun k => (k, v k))
      ++ [(ks.getLast hne, v (ks.getLast hne))] = ks.map fun k => (k, v k) := by
    conv_rhs => rw [← hsplit]
    simp [List.map_append]
  rw [hjoin, List.drop_one, ← List.map_tail]

/-- C8: for an Embedding Cache of capacity `C`, inserting `C+1` distinct
keys into an empty cache evicts exactly the first (least-recently-accessed)
key — the surviving keys are the other `C` in order — and `get` on the
evicted key returns absent; a `set` never grows the cache beyond its
capacity; `set` on a present key and `get` on a present key both move that
key to the most-recent end. -/
theorem c8_embedding_cache_lru (C : ℕ) (ks : List ℕ) (v : ℕ → Emb)
    (c : EmbeddingCache) (k : ℕ) (e e' : Emb)
    (hnd : ks.Nodup) (hlen : ks.length = C + 1) :
    ((EmbeddingCache.setAll ⟨[], C⟩ ks v).cache.map Prod.fst = ks.tail ∧
     ∀ k0, ks.head? = some k0 →
       ((EmbeddingCache.setAll ⟨[], C⟩ ks v).get k0).2 = none) ∧
    (c.cache.length ≤ c.max_size → (c.set k e).cache.length ≤ c.max_size) ∧
    (c.cache.length ≤ c.max_size → k ∈ c.cache.map Prod.fst →
       (c.set k e).cache.getLast? = some (k, e)) ∧
    (c.cache.lookup k = some e' → ((c.get k).1.cache.getLast? = some (k, e'))) := by
  refine ⟨⟨?_, ?_⟩, ?_, ?_, ?_⟩
  · rw [setAll_overflow ks v C hnd hlen]
    exact map_fst_pairs v ks.tail
  · intro k0 hk0
    obtain ⟨kt, hks⟩ : ∃ kt, ks = k0 :: kt := by
      cases ks with
      | nil => simp at hk0
      | cons a l =>
          simp only [List.head?_cons, Option.some.injEq] at hk0
          exact ⟨l, by rw [hk0]⟩
    have hk0nt : k0 ∉ ks.tail := by
      rw [hks]
      exact (List.nodup_cons.mp (hks ▸ hnd)).1
    have hlook : ((EmbeddingCache.setAll ⟨[], C⟩ ks v).cache).lookup k0 = none := by
      apply lookup_eq_none_of_not_fst
      rw [setAll_overflow ks v C hnd hlen, map_fst_pairs v ks.tail]
      exact hk0nt
    unfold EmbeddingCache.get
    rw [hlook]
  · intro hsize
    unfold EmbeddingCache.set
    have hfl : (c.cache.filter fun kv => kv.1 != k).length ≤ c.cache.length :=
      List.length_filter_le _ _
    by_cases hovf : c.max_size
        < ((c.cache.filter fun kv => kv.1 != k) ++ [(k, e)]).length
    · simp only [hovf, if_pos]
      simp only [List.length_drop, List.length_append, List.length_cons,
        List.length_nil]
      omega
    · simp only [hovf, if_neg, not_false_iff]
      simp only [List.length_append, List.length_cons, List.length_nil] at hovf ⊢
      omega
  · intro hsize hkmem
    obtain ⟨kv, hkv, hkvfst⟩ := List.mem_map.mp hkmem
    have hdropped : ¬ ((fun kv : ℕ × Emb => kv.1 != k) kv = true) := by
      simp [hkvfst]
    have hlt : (c.cache.filter fun kv => kv.1 != k).length < c.cache.length :=
      List.length_filter_lt_length_iff_exists.mpr ⟨kv, hkv, hdropped⟩
    unfold EmbeddingCache.set
    have hno : ¬ (c.max_size
        < ((c.cache.filter fun kv => kv.1 != k) ++ [(k, e)]).length) := by
      simp only [List.length_append, List.length_cons, List.length_nil]
      omega
    simp only [hno, if_neg, not_false_iff]
    exact List.getLast?_concat _
  · intro hlook
    unfold EmbeddingCache.get
    rw [hlook]
    exact List.getLast?_concat _


theorem foldl_min_mem (f : α → ℚ) :
    ∀ (xs : List α) (acc : α),
      xs.foldl (fun b a => if f a < f b then a else b) acc = acc ∨
      xs.foldl (fun b a => if f a < f b then a else b) acc ∈ xs := by
  intro xs
  induction xs with
  | nil => intro acc; left; rfl
  | cons x t ih =>
      intro acc
      simp only [List.foldl_cons]
      rcases ih (if f x < f acc then x else acc) with h | h
      · rw [h]
        by_cases hc : f x < f acc
        · right; rw [if_pos hc]; exact List.mem_cons_self _ _
        · left; rw [if_neg hc]
      · right; exact List.mem_cons_of_mem _ h

theorem foldl_min_le (f : α → ℚ) :
    ∀ (xs : List α) (acc : α),
      f (xs.foldl (fun b a => if f a < f b then a else b) acc) ≤ f acc ∧
      ∀ b ∈ xs, f (xs.foldl (fun b a => if f a < f b then a else b) acc) ≤ f b := by
  intro xs
  induction xs with
  | nil => intro acc; exact ⟨le_refl _, by simp⟩
  | cons x t ih =>
      intro acc
      simp only [List.foldl_cons]
      obtain ⟨h1, h2⟩ := ih (if f x < f acc then x else acc)
      have hstep : f (if f x < f acc then x else acc) ≤ f acc ∧
          f (if f x < f acc then x else acc) ≤ f x := by
        by_cases hc : f x < f acc
        · rw [if_pos hc]; exact ⟨le_of_lt hc, le_refl _⟩
        · rw [if_neg hc]; exact ⟨le_refl _, le_of_not_lt hc⟩
      refine ⟨le_trans h1 hstep.1, ?_⟩
      intro b hb
      rcases List.mem_cons.mp hb with rfl | hb
      · exact le_trans h1 hstep.2
      · exact h2 b hb

theorem minBy_spec (f : α → ℚ) (l : List α) (hl : l ≠ []) :
    ∃ a, minBy f l = some a ∧ a ∈ l ∧ ∀ b ∈ l, f a ≤ f b := by
  cases l with
  | nil => exact absurd rfl hl
  | cons x xs =>
      refine ⟨xs.foldl (fun b a => if f a < f b then a else b) x, rfl, ?_, ?_⟩
      · rcases foldl_min_mem f xs x with h | h
        · rw [h]; exact List.mem_cons_self _ _
        · exact List.mem_cons_of_mem _ h
      · intro b hb
        obtain ⟨h1, h2⟩ := foldl_min_le f xs x
        rcases List.mem_cons.mp hb with rfl | hb
        · exact h1
        · exact h2 b hb

theorem assignmentCandidates_ne_nil (n m : ℕ) : assignmentCandidates n m ≠ [] := by
  set k := min n m with hk
  have hrs : (List.range n).take k ∈ (List.range n).sublistsLen k := by
    apply List.mem_sublistsLen.mpr
    refine ⟨List.take_sublist _ _, ?_⟩
    simp only [List.length_take, List.length_range]
    omega
  have hcs : (List.range m).take k ∈ (List.range m).sublistsLen k := by
    apply List.mem_sublistsLen.mpr
    refine ⟨List.take_sublist _ _, ?_⟩
    simp only [List.length_take, List.length_range]
    omega
  apply List.ne_nil_of_mem
    (a := ((List.range n).take k).zip ((List.range m).take k))
  unfold assignmentCandidates
  apply List.mem_flatMap.mpr
  refine ⟨(List.range n).take k, hrs, ?_⟩
  apply List.mem_flatMap.mpr
  refine ⟨(List.range m).take k, hcs, ?_⟩
  apply List.mem_map.mpr
  exact ⟨(List.range m).take k, List.mem_permutations'.mpr (List.Perm.refl _), rfl⟩

theorem mem_assignmentCandidates {n m : ℕ} {A : List (ℕ × ℕ)}
    (h : A ∈ assignmentCandidates n m) :
    A.length = min n m ∧ (A.map Prod.fst).Nodup ∧ (A.map Prod.snd).Nodup ∧
    ∀ p ∈ A, p.1 < n ∧ p.2 < m := by
  unfold assignmentCandidates at h
  obtain ⟨rs, hrs, h⟩ := List.mem_flatMap.mp h
  obtain ⟨cs, hcs, h⟩ := List.mem_flatMap.mp h
  obtain ⟨cs', hcs', hA⟩ := List.mem_map.mp h
  obtain ⟨hrsub, hrlen⟩ := List.mem_sublistsLen.mp hrs
  obtain ⟨hcsub, hclen⟩ := List.mem_sublistsLen.mp hcs
  have hperm : cs'.Perm cs := List.mem_permutations'.mp hcs'
  have hrlt : ∀ x ∈ rs, x < n := fun x hx =>
    List.mem_range.mp (hrsub.subset hx)
  have hclt : ∀ x ∈ cs', x < m := fun x hx =>
    List.mem_range.mp (hcsub.subset (hperm.mem_iff.mp hx))
  have hrnd : rs.Nodup := hrsub.nodup (List.nodup_range n)
  have hcnd : cs'.Nodup := hperm.nodup_iff.mpr (hcsub.nodup (List.nodup_range m))
  have hlen' : cs'.length = min n m := hperm.length_eq.trans hclen
  have hrc : rs.length ≤ cs'.length := by rw [hrlen, hlen']
  have hcr : cs'.length ≤ rs.length := by rw [hrlen, hlen']
  subst hA
  refine ⟨?_, ?_, ?_, ?_⟩
  · rw [List.length_zip, hrlen, hlen']; exact min_self _
  · rw [List.map_fst_zip rs cs' hrc]; exact hrnd
  · rw [List.map_snd_zip rs cs' hcr]; exact hcnd
  · intro p hp
    obtain ⟨h1, h2⟩ := List.of_mem_zip hp
    exact ⟨hrlt _ h1, hclt _ h2⟩

theorem associate_spec (tracks : List Track) (dets : List Box) :
    associate tracks dets ∈ assignmentCandidates tracks.length dets.length ∧
    ∀ B ∈ assignmentCandidates tracks.length dets.length,
      totalCost (costOf tracks dets) (associate tracks dets) ≤
      totalCost (costOf tracks dets) B := by
  obtain ⟨a, ha, hmem, hmin⟩ := minBy_spec (totalCost (costOf tracks dets))
    (assignmentCandidates tracks.length dets.length)
    (assignmentCandidates_ne_nil _ _)
  unfold associate linear_sum_assignment
  rw [ha]
  exact ⟨hmem, hmin⟩

/-- C6: `associate` returns an assignment pairing every track with at most
one detection and every detection with at most one track, of maximal size
`min n m`, with indices in range, minimizing total `1 - IoU` cost over all
maximal assignments; with no tracks or no detections the assignment is
empty; and the cost model is `1 - iou` where `iou` is intersection area
over union area with `1e-6` added to the denominator. -/
theorem c6_associate_min_cost_matching (tracks : List Track) (dets : List Box) :
    ((associate tracks dets).map Prod.fst).Nodup ∧
    ((associate tracks dets).map Prod.snd).Nodup ∧
    (associate tracks dets).length = min tracks.length dets.length ∧
    (∀ p ∈ associate tracks dets, p.1 < tracks.length ∧ p.2 < dets.length) ∧
    (∀ B ∈ assignmentCandidates tracks.length dets.length,
       totalCost (costOf tracks dets) (associate tracks dets) ≤
       totalCost (costOf tracks dets) B) ∧
    (tracks = [] ∨ dets = [] → associate tracks dets = []) ∧
    (∀ rc : ℕ × ℕ, costOf tracks dets rc
       = 1 - iou (tracks.getD rc.1 default).bbox (dets.getD rc.2 default)) ∧
    (∀ a b : Box, iou a b =
       ((max 0 (min a.x2 b.x2 - max a.x1 b.x1) * max 0 (min a.y2 b.y2 - max a.y1 b.y1) : ℤ) : ℚ) /
       ((((a.x2 - a.x1) * (a.y2 - a.y1) : ℤ) : ℚ)
         + (((b.x2 - b.x1) * (b.y2 - b.y1) : ℤ) : ℚ)
         - ((max 0 (min a.x2 b.x2 - max a.x1 b.x1) * max 0 (min a.y2 b.y2 - max a.y1 b.y1) : ℤ) : ℚ)
         + 1/1000000)) := by
  obtain ⟨hmem, hmin⟩ := associate_spec tracks dets
  obtain ⟨hlen, hnd1, hnd2, hbound⟩ := mem_assignmentCandidates hmem
  refine ⟨hnd1, hnd2, hlen, hbound, hmin, ?_, fun rc => rfl, fun a b => rfl⟩
  intro hemp
  apply List.length_eq_zero.mp
  rw [hlen]
  rcases hemp with h | h <;> simp [h]

theorem spawnTracks_ids (now : ℚ) : ∀ (n : ℕ) (ds : List Box),
    (spawnTracks now n ds).map Track.track_id = List.range' n ds.length := by
  intro n ds
  induction ds generalizing n with
  | nil => rfl
  | cons d ds ih =>
      show Track.track_id (mkTrack n d now) :: (spawnTracks now (n + 1) ds).map Track.track_id
        = List.range' n (ds.length + 1)
      rw [ih (n + 1), List.range'_succ]
      rfl

theorem spawnTracks_length (now : ℚ) (n : ℕ) (ds : List Box) :
    (spawnTracks now n ds).length = ds.length := by
  have h := congrArg List.length (spawnTracks_ids now n ds)
  simpa using h

theorem pairs_filterMap_eq_map (tracks : List Track) (dets : List Box) (now : ℚ) :
    ∀ (pairs : List (ℕ × ℕ)),
    (∀ p ∈ pairs, p.1 < tracks.length ∧ p.2 < dets.length) →
    (pairs.filterMap fun rc =>
        match tracks.get? rc.1, dets.get? rc.2 with
        | some t, some d => some { t with bbox := d, last_seen := now }
        | _, _ => none)
      = pairs.map fun rc =>
          { tracks.getD rc.1 default with
            bbox := dets.getD rc.2 default, last_seen := now } := by
  intro pairs hv
  induction pairs with
  | nil => rfl
  | cons p ps ih =>
      have hp := hv p (List.mem_cons_self _ _)
      have h1 : tracks.get? p.1 = some (tracks.getD p.1 default) := by
        rw [List.get?_eq_getElem?, List.getElem?_eq_getElem hp.1,
          List.getD_eq_getElem _ _ hp.1]
      have h2 : dets.get? p.2 = some (dets.getD p.2 default) := by
        rw [List.get?_eq_getElem?, List.getElem?_eq_getElem hp.2,
          List.getD_eq_getElem _ _ hp.2]
      simp only [List.filterMap_cons, List.map_cons, h1, h2]
      rw [ih (fun q hq => hv q (List.mem_cons_of_mem _ hq))]

theorem update_nonempty (st : TrackerState) (dets : List Box) (now : ℚ)
    (hne : st.tracks ≠ []) :
    (BoTSORT.update st dets now).tracks
      = ((associate st.tracks dets).map fun rc =>
          { st.tracks.getD rc.1 default with
            bbox := dets.getD rc.2 default, last_seen := now })
        ++ spawnTracks now st.next_id
            ((dets.enum.filter fun p =>
              !(((associate st.tracks dets).map Prod.snd).contains p.1)).map Prod.snd)
    ∧ (BoTSORT.update st dets now).next_id
      = st.next_id + ((dets.enum.filter fun p =>
          !(((associate st.tracks dets).map Prod.snd).contains p.1)).map Prod.snd).length := by
  obtain ⟨tracks, next⟩ := st
  cases tracks with
  | nil => simp at hne
  | cons t0 ts =>
      have hvalid : ∀ p ∈ associate (t0 :: ts) dets,
          p.1 < (t0 :: ts).length ∧ p.2 < dets.length :=
        (mem_assignmentCandidates (associate_spec (t0 :: ts) dets).1).2.2.2
      constructor
      · show (BoTSORT.update ⟨t0 :: ts, next⟩ dets now).tracks = _
        simp only [BoTSORT.update]
        rw [pairs_filterMap_eq_map (t0 :: ts) dets now (associate (t0 :: ts) dets) hvalid]
      · rfl

theorem c4_unmatched_dropped_counterexample :
    (BoTSORT.update ⟨[mkTrack 0 ⟨0, 0, 10, 10⟩ 0], 1⟩ [] 0).tracks = [] := by
  decide

/-- C4 (amended): an existing track that the Associator does not pair with
a detection is dropped from the Track Store by the update (its `track_id`
is absent from the new store), and with an empty detection list the store
is empty after the update. -/
theorem c4_amended_unmatched_tracks_dropped (st : TrackerState) (dets : List Box)
    (now : ℚ) (hne : st.tracks ≠ [])
    (hbound : ∀ t ∈ st.tracks, t.track_id < st.next_id)
    (hnodup : (st.tracks.map Track.track_id).Nodup) :
    (dets = [] → (BoTSORT.update st dets now).tracks = []) ∧
    (∀ i, i < st.tracks.length →
       (∀ rc ∈ associate st.tracks dets, rc.1 ≠ i) →
       ∀ t' ∈ (BoTSORT.update st dets now).tracks,
         t'.track_id ≠ (st.tracks.getD i default).track_id) := by
  obtain ⟨hupd, hnext⟩ := update_nonempty st dets now hne
  have hvalid : ∀ p ∈ associate st.tracks dets,
      p.1 < st.tracks.length ∧ p.2 < dets.length :=
    (mem_assignmentCandidates (associate_spec st.tracks dets).1).2.2.2
  constructor
  · intro hdets
    subst hdets
    have hassoc : associate st.tracks [] = [] := by
      have hlen := (mem_assignmentCandidates (associate_spec st.tracks []).1).1
      apply List.length_eq_zero.mp
      simpa using hlen
    rw [hupd, hassoc]
    simp [spawnTracks]
  · intro i hi hunm t' ht'
    rw [hupd] at ht'
    rcases List.mem_append.mp ht' with hmem | hmem
    · obtain ⟨rc, hrc, hEq⟩ := List.mem_map.mp hmem
      subst hEq
      show (st.tracks.getD rc.1 default).track_id ≠ _
      have hrci : rc.1 < st.tracks.length := (hvalid rc hrc).1
      rw [List.getD_eq_getElem _ _ hrci, List.getD_eq_getElem _ _ hi]
      intro hidEq
      have hmap1 : (st.tracks.map Track.track_id).get ⟨rc.1, by simpa using hrci⟩
          = (st.tracks.map Track.track_id).get ⟨i, by simpa using hi⟩ := by
        simpa using hidEq
      exact hunm rc hrc (congrArg Fin.val (hnodup.get_inj_iff.mp hmap1))
    · have hid : t'.track_id ∈ (spawnTracks now st.next_id
          ((dets.enum.filter fun p =>
            !(((associate st.tracks dets).map Prod.snd).contains p.1)).map Prod.snd)).map
            Track.track_id :=
        List.mem_map_of_mem Track.track_id hmem
      rw [spawnTracks_ids] at hid
      have hge : st.next_id ≤ t'.track_id := (List.mem_range'_1.mp hid).1
      have hlt : (st.tracks.getD i default).track_id < st.next_id := by
        rw [List.getD_eq_getElem _ _ hi]
        exact hbound _ (List.getElem_mem hi)
      omega

/-- C5: `track_id` assignment is fresh and monotone: one update never
decreases `next_id`, preserves the invariant that every stored id is below
`next_id` and that stored ids are pairwise distinct, and the ids of the
tracks spawned by the update are exactly the consecutive block
`[next_id, next_id')` — so over any sequence of updates spawned ids are
strictly increasing and never reused. -/
theorem c5_track_ids_fresh_monotone (st : TrackerState) (dets : List Box) (now : ℚ)
    (hbound : ∀ t ∈ st.tracks, t.track_id < st.next_id)
    (hnodup : (st.tracks.map Track.track_id).Nodup) :
    st.next_id ≤ (BoTSORT.update st dets now).next_id ∧
    (∀ t ∈ (BoTSORT.update st dets now).tracks,
       t.track_id < (BoTSORT.update st dets now).next_id) ∧
    ((BoTSORT.update st dets now).tracks.map Track.track_id).Nodup ∧
    ((BoTSORT.update st dets now).tracks.map Track.track_id).filter
        (fun i => decide (st.next_id ≤ i))
      = List.range' st.next_id
          ((BoTSORT.update st dets now).next_id - st.next_id) := by
  by_cases hne : st.tracks = []
  · -- empty store: all detections spawn
    obtain ⟨tracks, next⟩ := st
    simp only at hne
    subst hne
    dsimp only
    have hupd : (BoTSORT.update ⟨[], next⟩ dets now).tracks
        = spawnTracks now next dets := rfl
    have hnext : (BoTSORT.update ⟨[], next⟩ dets now).next_id
        = next + dets.length := rfl
    refine ⟨?_, ?_, ?_, ?_⟩
    · rw [hnext]; omega
    · intro t ht
      have hid := List.mem_map_of_mem Track.track_id ht
      rw [hupd, spawnTracks_ids] at hid
      rw [hnext]
      exact (List.mem_range'_1.mp hid).2
    · rw [hupd, spawnTracks_ids]
      exact List.nodup_range' _ _
    · rw [hupd, hnext, spawnTracks_ids]
      have : next + dets.length - next = dets.length := by omega
      rw [this]
      apply List.filter_eq_self.mpr
      intro a ha
      exact decide_eq_true (List.mem_range'_1.mp ha).1
  · -- non-empty store
    obtain ⟨hupd, hnext⟩ := update_nonempty st dets now hne
    have hvalid : ∀ p ∈ associate st.tracks dets,
        p.1 < st.tracks.length ∧ p.2 < dets.length :=
      (mem_assignmentCandidates (associate_spec st.tracks dets).1).2.2.2
    have hfstnd : ((associate st.tracks dets).map Prod.fst).Nodup :=
      (mem_assignmentCandidates (associate_spec st.tracks dets).1).2.1
    have hpairsnd : (associate st.tracks dets).Nodup := hfstnd.of_map
    -- ids of the kept (paired) tracks
    have hkept : (((associate st.tracks dets).map fun rc =>
        { st.tracks.getD rc.1 default with
          bbox := dets.getD rc.2 default, last_seen := now }).map Track.track_id)
        = (associate st.tracks dets).map fun rc =>
            (st.tracks.getD rc.1 default).track_id := by
      rw [List.map_map]; rfl
    have hkeptlt : ∀ j ∈ (associate st.tracks dets).map
        (fun rc => (st.tracks.getD rc.1 default).track_id), j < st.next_id := by
      intro j hj
      obtain ⟨rc, hrc, hEq⟩ := List.mem_map.mp hj
      subst hEq
      rw [List.getD_eq_getElem _ _ (hvalid rc hrc).1]
      exact hbound _ (List.getElem_mem (hvalid rc hrc).1)
    have hkeptnd : ((associate st.tracks dets).map
        (fun rc => (st.tracks.getD rc.1 default).track_id)).Nodup := by
      apply List.Nodup.map_on ?_ hpairsnd
      intro x hx y hy hEq
      have hxi := (hvalid x hx).1
      have hyi := (hvalid y hy).1
      rw [List.getD_eq_getElem _ _ hxi, List.getD_eq_getElem _ _ hyi] at hEq
      have hmap1 : (st.tracks.map Track.track_id).get ⟨x.1, by simpa using hxi⟩
          = (st.tracks.map Track.track_id).get ⟨y.1, by simpa using hyi⟩ := by
        simpa using hEq
      have hfst : x.1 = y.1 := congrArg Fin.val (hnodup.get_inj_iff.mp hmap1)
      exact List.inj_on_of_nodup_map hfstnd hx hy hfst
    set u := (dets.enum.filter fun p =>
      !(((associate st.tracks dets).map Prod.snd).contains p.1)).map Prod.snd with hu
    have hids : (BoTSORT.update st dets now).tracks.map Track.track_id
        = ((associate st.tracks dets).map fun rc =>
            (st.tracks.getD rc.1 default).track_id)
          ++ List.range' st.next_id u.length := by
      rw [hupd, List.map_append, hkept, spawnTracks_ids]
    refine ⟨?_, ?_, ?_, ?_⟩
    · rw [hnext]; omega
    · intro t ht
      have hid := List.mem_map_of_mem Track.track_id ht
      rw [hids] at hid
      rw [hnext]
      rcases List.mem_append.mp hid with h | h
      · have := hkeptlt _ h; omega
      · have := (List.mem_range'_1.mp h).2; omega
    · rw [hids]
      apply List.nodup_append.mpr
      refine ⟨hkeptnd, List.nodup_range' _ _, ?_⟩
      intro a ha hb
      have h1 := hkeptlt a ha
      have h2 := (List.mem_range'_1.mp hb).1
      omega
    · rw [hids, hnext, List.filter_append]
      have h1 : ((associate st.tracks dets).map
          (fun rc => (st.tracks.getD rc.1 default).track_id)).filter
            (fun i => decide (st.next_id ≤ i)) = [] := by
        apply List.filter_eq_nil_iff.mpr
        intro a ha
        simp only [decide_eq_true_eq]
        have := hkeptlt a ha
        omega
      have h2 : (List.range' st.next_id u.length).filter
          (fun i => decide (st.next_id ≤ i)) = List.range' st.next_id u.length := by
        apply List.filter_eq_self.mpr
        intro a ha
        exact decide_eq_true (List.mem_range'_1.mp ha).1
      rw [h1, h2]
      have : st.next_id + u.length - st.next_id = u.length := by omega
      rw [this]
      rfl

theorem c8_embedding_cache_lru_witness :
    ([2, 5, 9] : List ℕ).Nodup ∧ ([2, 5, 9] : List ℕ).length = 2 + 1 ∧
    ((EmbeddingCache.setAll ⟨[], 2⟩ [2, 5, 9] fun k => [(k : ℚ)]).cache.map Prod.fst
      = ([2, 5, 9] : List ℕ).tail) :=
  ⟨by decide, rfl,
   (c8_embedding_cache_lru 2 [2, 5, 9] (fun k => [(k : ℚ)]) ⟨[(7, [1])], 4⟩ 7 [2] [1]
     (by decide) rfl).1.1⟩

theorem c4_amended_witness :
    ([mkTrack 0 ⟨0, 0, 10, 10⟩ 0] ≠ ([] : List Track)) ∧
    (BoTSORT.update ⟨[mkTrack 0 ⟨0, 0, 10, 10⟩ 0], 1⟩ [] 0).tracks = [] :=
  ⟨by decide,
   (c4_amended_unmatched_tracks_dropped ⟨[mkTrack 0 ⟨0, 0, 10, 10⟩ 0], 1⟩ [] 0
     (by decide) (by decide) (by decide)).1 rfl⟩

theorem c5_track_ids_witness :
    (∀ t ∈ [mkTrack 0 ⟨0, 0, 10, 10⟩ 0], t.track_id < 1) ∧
    (((BoTSORT.update ⟨[mkTrack 0 ⟨0, 0, 10, 10⟩ 0], 1⟩
        [⟨0, 0, 10, 10⟩, ⟨20, 20, 30, 30⟩] 0).tracks.map Track.track_id).filter
          (fun i => decide (1 ≤ i))
      = List.range' 1
          ((BoTSORT.update ⟨[mkTrack 0 ⟨0, 0, 10, 10⟩ 0], 1⟩
            [⟨0, 0, 10, 10⟩, ⟨20, 20, 30, 30⟩] 0).next_id - 1)) :=
  ⟨by decide,
   (c5_track_ids_fresh_monotone ⟨[mkTrack 0 ⟨0, 0, 10, 10⟩ 0], 1⟩
     [⟨0, 0, 10, 10⟩, ⟨20, 20, 30, 30⟩] 0 (by decide) (by decide)).2.2.2⟩

theorem stage3Embed_ok (o : TrackOracle) (crop : Box) (s : PipeState) (t : Track)
    (hembed : ∀ b, ∃ r, o.embedRes b = .ok r) :
    ∃ s2 t2, stage3Embed o crop s t = .ok (s2, t2) ∧
      t2.track_id = t.track_id ∧ t2.bbox = t.bbox ∧ t2.locked_id = t.locked_id ∧
      t2.locked_conf = t.locked_conf ∧ t2.unknown_logged = t.unknown_logged ∧
      t2.last_seen_frame = t.last_seen_frame ∧
      s2.frame_id = s.frame_id ∧ s2.track_history = s.track_history ∧
      s2.marked_attendance = s.marked_attendance := by
  unfold stage3Embed
  by_cases hg : settings.embed_interval ≤ s.frame_id - t.last_embed_frame
  · rw [if_pos hg]
    obtain ⟨r, hr⟩ := hembed crop
    rw [hr]
    cases r with
    | none =>
        exact ⟨s, t, rfl, rfl, rfl, rfl, rfl, rfl, rfl, rfl, rfl, rfl⟩
    | some e =>
        exact ⟨_, _, rfl, rfl, rfl, rfl, rfl, rfl, rfl, rfl, rfl, rfl⟩
  · rw [if_neg hg]
    exact ⟨s, t, rfl, rfl, rfl, rfl, rfl, rfl, rfl, rfl, rfl, rfl⟩

theorem stage3Embed_gate_none (o : TrackOracle) (crop : Box) (s : PipeState) (t : Track)
    (hgate : settings.embed_interval ≤ s.frame_id - t.last_embed_frame)
    (hembed : o.embedRes crop = .ok none) :
    stage3Embed o crop s t = .ok (s, t) := by
  unfold stage3Embed
  rw [if_pos hgate, hembed]

theorem stage4_cases (o : TrackOracle) (s : PipeState) (t : Track) :
    (∃ e u, t.embedding = some e ∧ o.searchRes e = .error u ∧
       stage4Identity o s t = .error (s, t)) ∨
    (∃ r, stage4Identity o s t = .ok r ∧
       r.t.embedding = t.embedding ∧ r.t.last_embed_frame = t.last_embed_frame ∧
       r.t.bbox = t.bbox ∧ r.t.track_id = t.track_id ∧
       r.s.cache = s.cache ∧ r.s.frame_id = s.frame_id) := by
  have h : stage4Identity o s t = stage4Identity o s t := rfl
  conv_rhs at h => unfold stage4Identity
  repeat' (first | split at h | dsimp only at h)
  all_goals
    first
      | exact Or.inl ⟨_, _, by assumption, by assumption, h⟩
      | exact Or.inr ⟨_, h, rfl, rfl, rfl, rfl, rfl, rfl⟩

theorem stage4_locked (o : TrackOracle) (s : PipeState) (t : Track) (lid : ℤ)
    (hlock : t.locked_id = some lid) :
    (∀ e, t.embedding = some e → o.searchRes e = .ok none →
       stage4Identity o s t
         = .ok ⟨s, { t with locked_id := none, locked_conf := none },
                none, none, "unknown", none⟩) ∧
    (∀ e m, t.embedding = some e → o.searchRes e = .ok (some m) →
       settings.sim_threshold < m.d →
       stage4Identity o s t
         = .ok ⟨s, { t with locked_id := none, locked_conf := none },
                none, none, "unknown", none⟩) ∧
    (∀ e m, t.embedding = some e → o.searchRes e = .ok (some m) →
       m.d ≤ settings.sim_threshold →
       stage4Identity o s t
         = .ok ⟨s, t, some lid, t.locked_conf, "recognized", none⟩) ∧
    (t.embedding = none →
       stage4Identity o s t
         = .ok ⟨s, t, some lid, t.locked_conf, "recognized", none⟩) := by
  refine ⟨?_, ?_, ?_, ?_⟩
  · intro e he hs
    simp only [stage4Identity, hlock, he, hs]
  · intro e m he hs hd
    simp only [stage4Identity, hlock, he, hs]
    rw [if_pos hd]
  · intro e m he hs hd
    simp only [stage4Identity, hlock, he, hs]
    rw [if_neg (not_lt.mpr hd)]
  · intro he
    simp only [stage4Identity, hlock, he]

theorem stage4_fresh_match (o : TrackOracle) (s : PipeState) (t : Track)
    (e : Emb) (m : SearchRes)
    (hunlock : t.locked_id = none) (he : t.embedding = some e)
    (hs : o.searchRes e = .ok (some m)) (hd : m.d ≤ settings.sim_threshold) :
    ∃ r, stage4Identity o s t = .ok r ∧
      r.student_id = some m.student_id ∧
      r.confidence = some (pyRound
        ((histAppend (s.track_history t.track_id) (1 - m.d)).sum
          / ((histAppend (s.track_history t.track_id) (1 - m.d)).length : ℚ)) 4) ∧
      r.status = "recognized" ∧
      r.t.locked_id = some m.student_id ∧
      r.t.locked_conf = r.confidence ∧
      r.t.bbox = t.bbox ∧ r.t.embedding = some e ∧ r.t.track_id = t.track_id ∧
      r.s.track_history = Function.update s.track_history t.track_id
        (histAppend (s.track_history t.track_id) (1 - m.d)) ∧
      r.s.frame_id = s.frame_id ∧ r.s.cache = s.cache ∧
      (r.attCalled
        = if m.student_id ∈ s.marked_attendance then none else some m.student_id) ∧
      (r.s.marked_attendance =
        if m.student_id ∉ s.marked_attendance ∧
            (o.attendance m.student_id = .status 200 ∨
             o.attendance m.student_id = .status 409)
          then insert m.student_id s.marked_attendance
          else s.marked_attendance) := by
  have h : stage4Identity o s t = stage4Identity o s t := rfl
  conv_rhs at h => unfold stage4Identity
  rw [hunlock, he] at h
  try dsimp only at h
  rw [hs] at h
  try dsimp only at h
  rw [if_pos hd] at h
  try dsimp only at h
  by_cases hmk : m.student_id ∈ s.marked_attendance
  · rw [if_pos hmk] at h
    exact ⟨_, h, rfl, rfl, rfl, rfl, rfl, rfl, rfl, rfl, rfl, rfl, rfl,
      by rw [if_pos hmk],
      by rw [if_neg (by simp [hmk])]⟩
  · rw [if_neg hmk] at h
    split at h
    · next heq =>
        exact ⟨_, h, rfl, rfl, rfl, rfl, rfl, rfl, rfl, rfl, rfl, rfl, rfl,
          by rw [if_neg hmk],
          by rw [if_pos ⟨hmk, Or.inl heq⟩]⟩
    · next heq =>
        exact ⟨_, h, rfl, rfl, rfl, rfl, rfl, rfl, rfl, rfl, rfl, rfl, rfl,
          by rw [if_neg hmk],
          by rw [if_pos ⟨hmk, Or.inr heq⟩]⟩
    · next hne200 hne409 =>
        refine ⟨_, h, rfl, rfl, rfl, rfl, rfl, rfl, rfl, rfl, rfl, rfl, rfl,
          by rw [if_neg hmk], ?_⟩
        rw [if_neg ?_]
        rintro ⟨-, hcase | hcase⟩
        · exact hne200 hcase
        · exact hne409 hcase

theorem c1_absent_search_unlocks_counterexample :
    stage4Identity
      { embedRes := fun _ => Except.ok none
        searchRes := fun _ => Except.ok none
        attendance := fun _ => AttResp.exn
        poseRes := fun _ => Except.ok (0, 0, 0) }
      { frame_id := 1, marked_attendance := ∅, track_history := fun _ => [],
        cache := ⟨[], 256⟩ }
      { track_id := 0, bbox := ⟨0, 0, 10, 10⟩, last_seen := 0, embedding := some [1],
        last_embed_frame := 1, locked_id := some 7, locked_conf := some (9/10) }
      = .ok ⟨{ frame_id := 1, marked_attendance := ∅, track_history := fun _ => [],
               cache := ⟨[], 256⟩ },
             { track_id := 0, bbox := ⟨0, 0, 10, 10⟩, last_seen := 0,
               embedding := some [1], last_embed_frame := 1,
               locked_id := none, locked_conf := none },
             none, none, "unknown", none⟩ := rfl

/-- C1 (amended): for a LOCKED track with an embedding present, a frame in
which the similarity search returns absent revokes the lock exactly as an
explicit above-threshold match does (identity reported absent, status
unknown); the track keeps its locked identity — reported as recognized with
the previously smoothed confidence — when the search returns a
within-threshold match, or when the embedding is absent. -/
theorem c1_amended_lock_revocation (o : TrackOracle) (s : PipeState) (t : Track)
    (lid : ℤ) (hlock : t.locked_id = some lid) :
    (∀ e, t.embedding = some e → o.searchRes e = .ok none →
       stage4Identity o s t
         = .ok ⟨s, { t with locked_id := none, locked_conf := none },
                none, none, "unknown", none⟩) ∧
    (∀ e m, t.embedding = some e → o.searchRes e = .ok (some m) →
       settings.sim_threshold < m.d →
       stage4Identity o s t
         = .ok ⟨s, { t with locked_id := none, locked_conf := none },
                none, none, "unknown", none⟩) ∧
    (∀ e m, t.embedding = some e → o.searchRes e = .ok (some m) →
       m.d ≤ settings.sim_threshold →
       stage4Identity o s t
         = .ok ⟨s, t, some lid, t.locked_conf, "recognized", none⟩) ∧
    (t.embedding = none →
       stage4Identity o s t
         = .ok ⟨s, t, some lid, t.locked_conf, "recognized", none⟩) :=
  stage4_locked o s t lid hlock

theorem c1_amended_witness :
    ((⟨0, ⟨0, 0, 10, 10⟩, 0, some [1], 1, some 7, some (9/10), false, 0⟩ :
        Track).locked_id = some 7) ∧
    stage4Identity
      { embedRes := fun _ => Except.ok none
        searchRes := fun _ => Except.ok (some ⟨7, 1/10⟩)
        attendance := fun _ => AttResp.exn
        poseRes := fun _ => Except.ok (0, 0, 0) }
      { frame_id := 1, marked_attendance := ∅, track_history := fun _ => [],
        cache := ⟨[], 256⟩ }
      (⟨0, ⟨0, 0, 10, 10⟩, 0, some [1], 1, some 7, some (9/10), false, 0⟩ : Track)
      = .ok ⟨{ frame_id := 1, marked_attendance := ∅, track_history := fun _ => [],
               cache := ⟨[], 256⟩ },
             (⟨0, ⟨0, 0, 10, 10⟩, 0, some [1], 1, some 7, some (9/10), false, 0⟩ :
               Track),
             some 7, some (9/10), "recognized", none⟩ :=
  ⟨rfl,
   (c1_amended_lock_revocation
     { embedRes := fun _ => Except.ok none
       searchRes := fun _ => Except.ok (some ⟨7, 1/10⟩)
       attendance := fun _ => AttResp.exn
       poseRes := fun _ => Except.ok (0, 0, 0) }
     { frame_id := 1, marked_attendance := ∅, track_history := fun _ => [],
       cache := ⟨[], 256⟩ }
     ⟨0, ⟨0, 0, 10, 10⟩, 0, some [1], 1, some 7, some (9/10), false, 0⟩
     7 rfl).2.2.1 [1] ⟨7, 1/10⟩ rfl rfl (by show (1/10 : ℚ) ≤ 45/100; norm_num)⟩

theorem stepFrame_locked_keeps (fh fw : ℤ) (o : TrackOracle) (s : PipeState)
    (t : Track) (lid : ℤ)
    (hlock : t.locked_id = some lid)
    (hbbox : t.bbox.x1 < t.bbox.x2 ∧ t.bbox.y1 < t.bbox.y2)
    (hsearch : ∀ e, ∃ m, o.searchRes e = .ok (some m) ∧ m.d ≤ settings.sim_threshold)
    (hembed : ∀ b, ∃ r, o.embedRes b = .ok r)
    (hpose : ∀ b, ∃ p, o.poseRes b = .ok p) :
    ∃ s' t' rec, stepFrame fh fw o s t = .ok s' t' (some rec) none ∧
      t'.locked_id = some lid ∧ t'.locked_conf = t.locked_conf ∧
      t'.bbox = t.bbox ∧
      s'.track_history = s.track_history ∧
      s'.marked_attendance = s.marked_attendance ∧
      rec.student_id = some lid ∧ rec.confidence = t.locked_conf ∧
      rec.status = "recognized" := by
  have hdeg : ¬ (t.bbox.x2 ≤ t.bbox.x1 ∨ t.bbox.y2 ≤ t.bbox.y1) :=
    not_or.mpr ⟨not_le.mpr hbbox.1, not_le.mpr hbbox.2⟩
  obtain ⟨s2, t2, hst3, hid3, hbb3, hlk3, hlc3, hul3, hlsf3, hfid3, hth3, hma3⟩ :=
    stage3Embed_ok o (clampCrop fh fw t.bbox) { s with frame_id := s.frame_id + 1 }
      { t with last_seen_frame := s.frame_id + 1 } hembed
  have hlk2 : t2.locked_id = some lid := by rw [hlk3]; exact hlock
  have hres4 : stage4Identity o s2 t2
      = .ok ⟨s2, t2, some lid, t2.locked_conf, "recognized", none⟩ := by
    cases hemb2 : t2.embedding with
    | none => exact (stage4_locked o s2 t2 lid hlk2).2.2.2 hemb2
    | some e =>
        obtain ⟨m, hm, hmd⟩ := hsearch e
        exact (stage4_locked o s2 t2 lid hlk2).2.2.1 e m hemb2 hm hmd
  obtain ⟨p, hp⟩ := hpose (clampCrop fh fw t.bbox)
  obtain ⟨pp, py, pr⟩ := p
  have hstep : stepFrame fh fw o s t
      = .ok s2 t2
          (some
            { track_id := t2.track_id
              bbox := t2.bbox
              student_id := some lid
              confidence := t2.locked_conf
              status := "recognized"
              pitch := pyRound pp 2
              yaw := pyRound py 2
              roll := pyRound pr 2
              engagement := compute_engagement pp py }) none := by
    unfold stepFrame stepTrack
    dsimp only
    rw [if_neg hdeg, hst3]
    dsimp only
    rw [hres4]
    dsimp only
    rw [hp]
  refine ⟨s2, t2, _, hstep, hlk2, ?_, ?_, hth3, hma3, rfl, ?_, rfl⟩
  · rw [hlc3]
  · rw [hbb3]
  · show t2.locked_conf = t.locked_conf
    rw [hlc3]

theorem runTrackFrames_locked_frozen (fh fw : ℤ) (os : List TrackOracle)
    (s : PipeState) (t : Track) (lid : ℤ)
    (hlock : t.locked_id = some lid)
    (hbbox : t.bbox.x1 < t.bbox.x2 ∧ t.bbox.y1 < t.bbox.y2)
    (hos : ∀ o ∈ os,
      (∀ e, ∃ m, o.searchRes e = .ok (some m) ∧ m.d ≤ settings.sim_threshold) ∧
      (∀ b, ∃ r, o.embedRes b = .ok r) ∧
      (∀ b, ∃ p, o.poseRes b = .ok p)) :
    (runTrackFrames fh fw os s t).2.1.locked_id = some lid ∧
    (runTrackFrames fh fw os s t).2.1.locked_conf = t.locked_conf ∧
    (runTrackFrames fh fw os s t).1.track_history = s.track_history ∧
    (runTrackFrames fh fw os s t).2.2.length = os.length ∧
    ∀ out ∈ (runTrackFrames fh fw os s t).2.2, ∃ rec, out = some rec ∧
      rec.student_id = some lid ∧ rec.confidence = t.locked_conf ∧
      rec.status = "recognized" := by
  induction os generalizing s t with
  | nil => exact ⟨hlock, rfl, rfl, rfl, fun out hout => absurd hout (List.not_mem_nil out)⟩
  | cons o os ih =>
      obtain ⟨hsearch, hembed, hpose⟩ := hos o (List.mem_cons_self _ _)
      obtain ⟨s', t', rec, hstep, hlk', hlc', hbb', hth', hma', hsid, hconf, hstat⟩ :=
        stepFrame_locked_keeps fh fw o s t lid hlock hbbox hsearch hembed hpose
      have hos' : ∀ o' ∈ os,
          (∀ e, ∃ m, o'.searchRes e = .ok (some m) ∧ m.d ≤ settings.sim_threshold) ∧
          (∀ b, ∃ r, o'.embedRes b = .ok r) ∧
          (∀ b, ∃ p, o'.poseRes b = .ok p) :=
        fun o' ho' => hos o' (List.mem_cons_of_mem _ ho')
      have hbbox' : t'.bbox.x1 < t'.bbox.x2 ∧ t'.bbox.y1 < t'.bbox.y2 := by
        rw [hbb']; exact hbbox
      obtain ⟨ih1, ih2, ih3, ih4, ih5⟩ := ih s' t' hlk' hbbox' hos'
      have hrun : runTrackFrames fh fw (o :: os) s t
          = ((runTrackFrames fh fw os s' t').1,
             (runTrackFrames fh fw os s' t').2.1,
             some rec :: (runTrackFrames fh fw os s' t').2.2) := by
        conv_lhs => rw [runTrackFrames]
        rw [hstep]
      rw [hrun]
      refine ⟨ih1, ?_, ?_, ?_, ?_⟩
      · rw [ih2, hlc']
      · show (runTrackFrames fh fw os s' t').1.track_history = s.track_history
        rw [ih3, hth']
      · simp [ih4]
      · intro out hout
        rcases List.mem_cons.mp hout with rfl | hout
        · exact ⟨rec, rfl, hsid, hconf, hstat⟩
        · obtain ⟨r2, hr2, h1, h2, h3⟩ := ih5 out hout
          refine ⟨r2, hr2, h1, ?_, h3⟩
          rw [h2, hlc']


/-- C9: a LOCKED track whose re-validation search keeps returning
within-threshold matches stays LOCKED with its stored smoothed confidence,
reports that confidence as recognized on every frame, and its confidence
history is never appended to or recomputed, for any number of consecutive
frames. -/
theorem c9_locked_revalidation_frozen (fh fw : ℤ) (os : List TrackOracle)
    (s : PipeState) (t : Track) (lid : ℤ)
    (hlock : t.locked_id = some lid)
    (hbbox : t.bbox.x1 < t.bbox.x2 ∧ t.bbox.y1 < t.bbox.y2)
    (hos : ∀ o ∈ os,
      (∀ e, ∃ m, o.searchRes e = .ok (some m) ∧ m.d ≤ settings.sim_threshold) ∧
      (∀ b, ∃ r, o.embedRes b = .ok r) ∧
      (∀ b, ∃ p, o.poseRes b = .ok p)) :
    (runTrackFrames fh fw os s t).2.1.locked_id = some lid ∧
    (runTrackFrames fh fw os s t).2.1.locked_conf = t.locked_conf ∧
    (runTrackFrames fh fw os s t).1.track_history = s.track_history ∧
    (runTrackFrames fh fw os s t).2.2.length = os.length ∧
    ∀ out ∈ (runTrackFrames fh fw os s t).2.2, ∃ rec, out = some rec ∧
      rec.student_id = some lid ∧ rec.confidence = t.locked_conf ∧
      rec.status = "recognized" :=
  runTrackFrames_locked_frozen fh fw os s t lid hlock hbbox hos

theorem c9_locked_revalidation_witness :
    ((⟨0, ⟨0, 0, 10, 10⟩, 0, some [1], 1, some 7, some (9/10), false, 0⟩ :
        Track).locked_id = some 7) ∧
    (runTrackFrames 100 100
      [⟨fun _ => Except.ok none, fun _ => Except.ok (some ⟨7, 1/10⟩),
        fun _ => AttResp.exn, fun _ => Except.ok (0, 0, 0)⟩,
       ⟨fun _ => Except.ok none, fun _ => Except.ok (some ⟨7, 1/5⟩),
        fun _ => AttResp.exn, fun _ => Except.ok (0, 0, 0)⟩]
      { frame_id := 0, marked_attendance := ∅, track_history := fun _ => [],
        cache := ⟨[], 256⟩ }
      ⟨0, ⟨0, 0, 10, 10⟩, 0, some [1], 1, some 7, some (9/10), false, 0⟩).2.1.locked_id
      = some 7 :=
  ⟨rfl,
   (c9_locked_revalidation_frozen 100 100
     [⟨fun _ => Except.ok none, fun _ => Except.ok (some ⟨7, 1/10⟩),
       fun _ => AttResp.exn, fun _ => Except.ok (0, 0, 0)⟩,
      ⟨fun _ => Except.ok none, fun _ => Except.ok (some ⟨7, 1/5⟩),
       fun _ => AttResp.exn, fun _ => Except.ok (0, 0, 0)⟩]
     { frame_id := 0, marked_attendance := ∅, track_history := fun _ => [],
       cache := ⟨[], 256⟩ }
     ⟨0, ⟨0, 0, 10, 10⟩, 0, some [1], 1, some 7, some (9/10), false, 0⟩
     7 rfl (by decide)
     (by
       intro o ho
       rcases List.mem_cons.mp ho with rfl | ho
       · exact ⟨fun e => ⟨⟨7, 1/10⟩, rfl, by show (1/10 : ℚ) ≤ 45/100; norm_num⟩,
           fun b => ⟨none, rfl⟩, fun b => ⟨(0, 0, 0), rfl⟩⟩
       · rcases List.mem_cons.mp ho with rfl | ho
         · exact ⟨fun e => ⟨⟨7, 1/5⟩, rfl, by show (1/5 : ℚ) ≤ 45/100; norm_num⟩,
             fun b => ⟨none, rfl⟩, fun b => ⟨(0, 0, 0), rfl⟩⟩
         · exact absurd ho (List.not_mem_nil o))).1⟩

theorem stage3Embed_none (o : TrackOracle) (crop : Box) (s : PipeState) (t : Track)
    (hembed : ∀ b, o.embedRes b = .ok none) :
    stage3Embed o crop s t = .ok (s, t) := by
  unfold stage3Embed
  by_cases hg : settings.embed_interval ≤ s.frame_id - t.last_embed_frame
  · rw [if_pos hg, hembed crop]
  · rw [if_neg hg]

/-- C10: when the re-embedding gate fires but the extractor returns absent,
the track's embedding, its `last_embed_frame` and the Embedding Cache are
all left unchanged by the per-track step, and — because `last_embed_frame`
did not advance — the gate fires again at the very next frame. -/
theorem c10_reembed_gate_absent (fh fw : ℤ) (o : TrackOracle) (s : PipeState)
    (t : Track)
    (hbbox : t.bbox.x1 < t.bbox.x2 ∧ t.bbox.y1 < t.bbox.y2)
    (hgate : settings.embed_interval ≤ s.frame_id - t.last_embed_frame)
    (hembed : ∀ b, o.embedRes b = .ok none) :
    (stepTrack fh fw o s t).track.embedding = t.embedding ∧
    (stepTrack fh fw o s t).track.last_embed_frame = t.last_embed_frame ∧
    (stepTrack fh fw o s t).state.cache = s.cache ∧
    settings.embed_interval
      ≤ (s.frame_id + 1) - (stepTrack fh fw o s t).track.last_embed_frame := by
  have hdeg : ¬ (t.bbox.x2 ≤ t.bbox.x1 ∨ t.bbox.y2 ≤ t.bbox.y1) :=
    not_or.mpr ⟨not_le.mpr hbbox.1, not_le.mpr hbbox.2⟩
  have hst3 : stage3Embed o (clampCrop fh fw t.bbox) s
      { t with last_seen_frame := s.frame_id }
      = .ok (s, { t with last_seen_frame := s.frame_id }) :=
    stage3Embed_none o _ s _ hembed
  rcases stage4_cases o s { t with last_seen_frame := s.frame_id } with
    ⟨e, u, hemb, hs, h4⟩ | ⟨r, h4, hpE, hpL, hpB, hpI, hpC, hpF⟩
  · have hts : (stepTrack fh fw o s t).track = { t with last_seen_frame := s.frame_id }
        ∧ (stepTrack fh fw o s t).state = s := by
      unfold stepTrack
      dsimp only
      rw [if_neg hdeg, hst3]
      dsimp only
      rw [h4]
      exact ⟨rfl, rfl⟩
    rw [hts.1, hts.2]
    refine ⟨rfl, rfl, rfl, ?_⟩
    show settings.embed_interval ≤ s.frame_id + 1 - t.last_embed_frame
    omega
  · have hts : (stepTrack fh fw o s t).track = r.t
        ∧ (stepTrack fh fw o s t).state = r.s := by
      unfold stepTrack
      dsimp only
      rw [if_neg hdeg, hst3]
      dsimp only
      rw [h4]
      dsimp only
      cases hp : o.poseRes (clampCrop fh fw t.bbox) with
      | error u => exact ⟨rfl, rfl⟩
      | ok p =>
          obtain ⟨pp, py, pr⟩ := p
          exact ⟨rfl, rfl⟩
    rw [hts.1, hts.2]
    refine ⟨hpE, hpL, hpC, ?_⟩
    rw [hpL]
    show settings.embed_interval ≤ s.frame_id + 1 - t.last_embed_frame
    omega

theorem c10_reembed_gate_absent_witness :
    ((15 : ℤ) ≤ (20 : ℤ) - (1 : ℤ) →
      ((stepTrack 100 100 (scnOracle (1/10)) { scnState with frame_id := 20 }
          scnTrack).track.embedding = scnTrack.embedding ∧
       (stepTrack 100 100 (scnOracle (1/10)) { scnState with frame_id := 20 }
          scnTrack).track.last_embed_frame = scnTrack.last_embed_frame)) ∧
    ((stepTrack 100 100 (scnOracle (1/10)) { scnState with frame_id := 20 }
        scnTrack).track.embedding = scnTrack.embedding) :=
  ⟨fun _ =>
    ⟨(c10_reembed_gate_absent 100 100 (scnOracle (1/10))
        { scnState with frame_id := 20 } scnTrack (by decide) (by decide)
        (fun b => rfl)).1,
     (c10_reembed_gate_absent 100 100 (scnOracle (1/10))
        { scnState with frame_id := 20 } scnTrack (by decide) (by decide)
        (fun b => rfl)).2.1⟩,
   (c10_reembed_gate_absent 100 100 (scnOracle (1/10))
      { scnState with frame_id := 20 } scnTrack (by decide) (by decide)
      (fun b => rfl)).1⟩

theorem stepFrame_fresh_match (fh fw : ℤ) (o : TrackOracle) (s : PipeState)
    (t : Track) (e : Emb) (m : SearchRes)
    (hunlock : t.locked_id = none) (he : t.embedding = some e)
    (hbbox : t.bbox.x1 < t.bbox.x2 ∧ t.bbox.y1 < t.bbox.y2)
    (hs : o.searchRes e = .ok (some m)) (hd : m.d ≤ settings.sim_threshold)
    (hembed : ∀ b, o.embedRes b = .ok none)
    (hpose : ∀ b, ∃ p, o.poseRes b = .ok p) :
    ∃ s' t' rec att, stepFrame fh fw o s t = .ok s' t' (some rec) att ∧
      t'.locked_id = some m.student_id ∧
      t'.locked_conf = some (pyRound
        ((histAppend (s.track_history t.track_id) (1 - m.d)).sum
          / ((histAppend (s.track_history t.track_id) (1 - m.d)).length : ℚ)) 4) ∧
      t'.bbox = t.bbox ∧ t'.embedding = t.embedding ∧
      s'.track_history = Function.update s.track_history t.track_id
        (histAppend (s.track_history t.track_id) (1 - m.d)) ∧
      rec.student_id = some m.student_id ∧
      rec.confidence = t'.locked_conf ∧
      rec.status = "recognized" := by
  have hdeg : ¬ (t.bbox.x2 ≤ t.bbox.x1 ∨ t.bbox.y2 ≤ t.bbox.y1) :=
    not_or.mpr ⟨not_le.mpr hbbox.1, not_le.mpr hbbox.2⟩
  have hst3 : stage3Embed o (clampCrop fh fw t.bbox)
      { s with frame_id := s.frame_id + 1 }
      { t with last_seen_frame := s.frame_id + 1 }
      = .ok ({ s with frame_id := s.frame_id + 1 },
             { t with last_seen_frame := s.frame_id + 1 }) :=
    stage3Embed_none o _ _ _ hembed
  obtain ⟨r, hr, hsid, hconf, hstat, hlkid, hlkconf, hB, hE, hI, hth, hfid, hcache,
      hatt, hmk⟩ :=
    stage4_fresh_match o { s with frame_id := s.frame_id + 1 }
      { t with last_seen_frame := s.frame_id + 1 } e m hunlock he hs hd
  obtain ⟨p, hp⟩ := hpose (clampCrop fh fw t.bbox)
  obtain ⟨pp, py, pr⟩ := p
  have hstep : stepFrame fh fw o s t
      = .ok r.s r.t
          (some
            { track_id := r.t.track_id
              bbox := r.t.bbox
              student_id := r.student_id
              confidence := r.confidence
              status := r.status
              pitch := pyRound pp 2
              yaw := pyRound py 2
              roll := pyRound pr 2
              engagement := compute_engagement pp py }) r.attCalled := by
    unfold stepFrame stepTrack
    dsimp only
    rw [if_neg hdeg, hst3]
    dsimp only
    rw [hr]
    dsimp only
    rw [hp]
  refine ⟨r.s, r.t, _, r.attCalled, hstep, hlkid, ?_, ?_, ?_, hth, hsid,
    hlkconf.symm, hstat⟩
  · rw [hlkconf, hconf]
  · exact hB
  · rw [hE]; exact he.symm

theorem runTrackFrames_first_match (fh fw : ℤ) (o1 : TrackOracle)
    (os : List TrackOracle) (s : PipeState) (t : Track) (e : Emb) (m : SearchRes)
    (hunlock : t.locked_id = none) (he : t.embedding = some e)
    (hbbox : t.bbox.x1 < t.bbox.x2 ∧ t.bbox.y1 < t.bbox.y2)
    (hs1 : o1.searchRes e = .ok (some m)) (hd1 : m.d ≤ settings.sim_threshold)
    (hembed1 : ∀ b, o1.embedRes b = .ok none)
    (hpose1 : ∀ b, ∃ p, o1.poseRes b = .ok p)
    (hos : ∀ o ∈ os,
      (∀ e', ∃ m', o.searchRes e' = .ok (some m') ∧ m'.d ≤ settings.sim_threshold) ∧
      (∀ b, ∃ r, o.embedRes b = .ok r) ∧ (∀ b, ∃ p, o.poseRes b = .ok p)) :
    ((runTrackFrames fh fw (o1 :: os) s t).2.2.map fun out =>
        out.map OutputRec.confidence)
      = List.replicate (os.length + 1)
          (some (some (pyRound
            ((histAppend (s.track_history t.track_id) (1 - m.d)).sum
              / ((histAppend (s.track_history t.track_id) (1 - m.d)).length : ℚ)) 4))) ∧
    (runTrackFrames fh fw (o1 :: os) s t).1.track_history t.track_id
      = histAppend (s.track_history t.track_id) (1 - m.d) ∧
    (runTrackFrames fh fw (o1 :: os) s t).2.1.locked_conf
      = some (pyRound
          ((histAppend (s.track_history t.track_id) (1 - m.d)).sum
            / ((histAppend (s.track_history t.track_id) (1 - m.d)).length : ℚ)) 4) := by
  obtain ⟨s', t', rec, att, hstep, hlk', hlc', hbb', hemb', hth', hsid, hconf, hstat⟩ :=
    stepFrame_fresh_match fh fw o1 s t e m hunlock he hbbox hs1 hd1 hembed1 hpose1
  have hrun : runTrackFrames fh fw (o1 :: os) s t
      = ((runTrackFrames fh fw os s' t').1,
         (runTrackFrames fh fw os s' t').2.1,
         some rec :: (runTrackFrames fh fw os s' t').2.2) := by
    conv_lhs => rw [runTrackFrames]
    rw [hstep]
  have hbbox' : t'.bbox.x1 < t'.bbox.x2 ∧ t'.bbox.y1 < t'.bbox.y2 := by
    rw [hbb']; exact hbbox
  obtain ⟨f1, f2, f3, f4, f5⟩ :=
    runTrackFrames_locked_frozen fh fw os s' t' m.student_id hlk' hbbox' hos
  rw [hrun]
  refine ⟨?_, ?_, ?_⟩
  · refine List.eq_replicate_iff.mpr ⟨?_, ?_⟩
    · simp [f4]
    · intro b hb
      simp only [List.map_cons, List.mem_cons] at hb
      rcases hb with rfl | hb
      · simp only [Option.map_some']
        rw [hconf, hlc']
      · obtain ⟨out, hout, hEq⟩ := List.mem_map.mp hb
        obtain ⟨r2, hr2, hs2, hc2, hst2⟩ := f5 out hout
        subst hEq
        subst hr2
        simp only [Option.map_some']
        rw [hc2, hlc']
  · show (runTrackFrames fh fw os s' t').1.track_history t.track_id = _
    rw [f3, hth']
    rw [Function.update_same]
  · show (runTrackFrames fh fw os s' t').2.1.locked_conf = _
    rw [f2, hlc']

theorem scnOracle_good (d : ℚ) (hd : d ≤ settings.sim_threshold) :
    (∀ e', ∃ m', (scnOracle d).searchRes e' = .ok (some m')
        ∧ m'.d ≤ settings.sim_threshold) ∧
    (∀ b, ∃ r, (scnOracle d).embedRes b = .ok r) ∧
    (∀ b, ∃ p, (scnOracle d).poseRes b = .ok p) :=
  ⟨fun _ => ⟨⟨7, d⟩, rfl, hd⟩, fun _ => ⟨none, rfl⟩, fun _ => ⟨(0, 0, 0), rfl⟩⟩

theorem c2_locked_after_first_match_counterexample :
    ((runTrackFrames 100 100
        [scnOracle (1/10), scnOracle (1/5), scnOracle (3/20), scnOracle (1/20),
         scnOracle (3/10)] scnState scnTrack).2.2.map fun out =>
        out.map OutputRec.confidence)
      = List.replicate 5 (some (some (9/10))) ∧
    (runTrackFrames 100 100
        [scnOracle (1/10), scnOracle (1/5), scnOracle (3/20), scnOracle (1/20),
         scnOracle (3/10)] scnState scnTrack).1.track_history 0 = [9/10] ∧
    ((9 : ℚ)/10 ≠ 21/25) := by
  have hmain := runTrackFrames_first_match 100 100 (scnOracle (1/10))
    [scnOracle (1/5), scnOracle (3/20), scnOracle (1/20), scnOracle (3/10)]
    scnState scnTrack [1] ⟨7, 1/10⟩ rfl rfl (by decide) rfl
    (by show (1/10 : ℚ) ≤ 45/100; norm_num) (fun b => rfl)
    (fun b => ⟨(0, 0, 0), rfl⟩)
    (by
      intro o ho
      simp only [List.mem_cons, List.not_mem_nil, or_false] at ho
      rcases ho with rfl | rfl | rfl | rfl
      · exact scnOracle_good (1/5) (by show (1/5 : ℚ) ≤ 45/100; norm_num)
      · exact scnOracle_good (3/20) (by show (3/20 : ℚ) ≤ 45/100; norm_num)
      · exact scnOracle_good (1/20) (by show (1/20 : ℚ) ≤ 45/100; norm_num)
      · exact scnOracle_good (3/10) (by show (3/10 : ℚ) ≤ 45/100; norm_num))
  have hconf9 : pyRound
      ((histAppend (scnState.track_history scnTrack.track_id)
          (1 - (⟨7, 1/10⟩ : SearchRes).d)).sum
        / ((histAppend (scnState.track_history scnTrack.track_id)
          (1 - (⟨7, 1/10⟩ : SearchRes).d)).length : ℚ)) 4 = 9/10 := by
    show pyRound (((1 : ℚ) - 1/10 + 0) / ((1 : ℕ) : ℚ)) 4 = 9/10
    rw [show ((1 : ℚ) - 1/10 + 0) / ((1 : ℕ) : ℚ) = 9/10 by push_cast; norm_num]
    simp only [pyRound, pyRoundInt]
    norm_num
  refine ⟨?_, ?_, by norm_num⟩
  · rw [hmain.1, hconf9]
    rfl
  · show (runTrackFrames 100 100
        [scnOracle (1/10), scnOracle (1/5), scnOracle (3/20), scnOracle (1/20),
         scnOracle (3/10)] scnState scnTrack).1.track_history scnTrack.track_id
      = [9/10]
    rw [hmain.2.1]
    show ([] : List ℚ) ++ [(1 : ℚ) - 1/10] = [9/10]
    norm_num

/-- C2 (amended): an unlocked track matched within threshold on the first
frame locks immediately, so on five consecutive matched frames the reported
confidence after the fifth frame equals the smoothed value computed at the
FIRST frame (the first raw confidence, not the five-frame mean); the
history holds only that first raw value.  The bounded-history mechanics do
hold whenever the unlocked-match path runs: appending to a history already
holding 5 values evicts the oldest, and the history never exceeds 5
elements. -/
theorem c2_amended_smoothing (fh fw : ℤ) (o1 : TrackOracle)
    (os : List TrackOracle) (s : PipeState) (t : Track) (e : Emb) (m : SearchRes)
    (hunlock : t.locked_id = none) (he : t.embedding = some e)
    (hbbox : t.bbox.x1 < t.bbox.x2 ∧ t.bbox.y1 < t.bbox.y2)
    (hs1 : o1.searchRes e = .ok (some m)) (hd1 : m.d ≤ settings.sim_threshold)
    (hembed1 : ∀ b, o1.embedRes b = .ok none)
    (hpose1 : ∀ b, ∃ p, o1.poseRes b = .ok p)
    (hos : ∀ o ∈ os,
      (∀ e', ∃ m', o.searchRes e' = .ok (some m') ∧ m'.d ≤ settings.sim_threshold) ∧
      (∀ b, ∃ r, o.embedRes b = .ok r) ∧ (∀ b, ∃ p, o.poseRes b = .ok p)) :
    (((runTrackFrames fh fw (o1 :: os) s t).2.2.map fun out =>
        out.map OutputRec.confidence)
      = List.replicate (os.length + 1)
          (some (some (pyRound
            ((histAppend (s.track_history t.track_id) (1 - m.d)).sum
              / ((histAppend (s.track_history t.track_id) (1 - m.d)).length : ℚ)) 4)))
      ∧ (runTrackFrames fh fw (o1 :: os) s t).1.track_history t.track_id
          = histAppend (s.track_history t.track_id) (1 - m.d)) ∧
    (∀ (h : List ℚ) (raw : ℚ), h.length = 5 → histAppend h raw = h.tail ++ [raw]) ∧
    (∀ (h : List ℚ) (raw : ℚ), h.length ≤ 5 → (histAppend h raw).length ≤ 5) := by
  obtain ⟨g1, g2, g3⟩ := runTrackFrames_first_match fh fw o1 os s t e m hunlock he
    hbbox hs1 hd1 hembed1 hpose1 hos
  refine ⟨⟨g1, g2⟩, ?_, ?_⟩
  · intro h raw hlen
    unfold histAppend
    have hgt : 5 < (h ++ [raw]).length := by
      simp [hlen]
    rw [if_pos hgt, List.drop_append_of_le_length (by omega), List.drop_one]
  · intro h raw hlen
    unfold histAppend
    by_cases hgt : 5 < (h ++ [raw]).length
    · rw [if_pos hgt]
      simp only [List.length_drop, List.length_append, List.length_cons,
        List.length_nil]
      omega
    · rw [if_neg hgt]
      simp only [List.length_append, List.length_cons, List.length_nil] at hgt ⊢
      omega

theorem c2_amended_witness :
    (scnTrack.locked_id = none) ∧
    ((runTrackFrames 100 100
        [scnOracle (1/10), scnOracle (1/5), scnOracle (3/20), scnOracle (1/20),
         scnOracle (3/10)] scnState scnTrack).2.2.map fun out =>
        out.map OutputRec.confidence)
      = List.replicate 5
          (some (some (pyRound
            ((histAppend (scnState.track_history scnTrack.track_id)
                (1 - (⟨7, 1/10⟩ : SearchRes).d)).sum
              / ((histAppend (scnState.track_history scnTrack.track_id)
                (1 - (⟨7, 1/10⟩ : SearchRes).d)).length : ℚ)) 4))) :=
  ⟨rfl,
   (c2_amended_smoothing 100 100 (scnOracle (1/10))
     [scnOracle (1/5), scnOracle (3/20), scnOracle (1/20), scnOracle (3/10)]
     scnState scnTrack [1] ⟨7, 1/10⟩ rfl rfl (by decide) rfl
     (by show (1/10 : ℚ) ≤ 45/100; norm_num) (fun b => rfl)
     (fun b => ⟨(0, 0, 0), rfl⟩)
     (by
       intro o ho
       simp only [List.mem_cons, List.not_mem_nil, or_false] at ho
       rcases ho with rfl | rfl | rfl | rfl
       · exact scnOracle_good (1/5) (by show (1/5 : ℚ) ≤ 45/100; norm_num)
       · exact scnOracle_good (3/20) (by show (3/20 : ℚ) ≤ 45/100; norm_num)
       · exact scnOracle_good (1/20) (by show (1/20 : ℚ) ≤ 45/100; norm_num)
       · exact scnOracle_good (3/10) (by show (3/10 : ℚ) ≤ 45/100; norm_num))).1.1⟩

/-- C3: across two frames that each produce a fresh within-threshold match
for the same identity, the attendance call is issued exactly once when the
first call's response is 200 (accepted) or 409 (already recorded) — the
identity enters the dedup set exactly on those responses, so the second
fresh match does not call again; on any other outcome (other status code or
a raised request) the identity stays out of the dedup set and the second
fresh match issues a second attempt. -/
theorem c3_attendance_dedup (s : PipeState) (t₁ t₂ : Track) (o₁ o₂ : TrackOracle)
    (e₁ e₂ : Emb) (m₁ m₂ : SearchRes)
    (h₁ : t₁.locked_id = none) (h₂ : t₁.embedding = some e₁)
    (h₃ : o₁.searchRes e₁ = .ok (some m₁)) (h₄ : m₁.d ≤ settings.sim_threshold)
    (hfresh : m₁.student_id ∉ s.marked_attendance)
    (h₁' : t₂.locked_id = none) (h₂' : t₂.embedding = some e₂)
    (h₃' : o₂.searchRes e₂ = .ok (some m₂)) (h₄' : m₂.d ≤ settings.sim_threshold)
    (hsame : m₂.student_id = m₁.student_id) :
    ∃ out₁, stage4Identity o₁ s t₁ = .ok out₁ ∧
      out₁.attCalled = some m₁.student_id ∧
      (m₁.student_id ∈ out₁.s.marked_attendance ↔
        (o₁.attendance m₁.student_id = .status 200 ∨
         o₁.attendance m₁.student_id = .status 409)) ∧
      ∃ out₂, stage4Identity o₂ out₁.s t₂ = .ok out₂ ∧
        ((o₁.attendance m₁.student_id = .status 200 ∨
          o₁.attendance m₁.student_id = .status 409) → out₂.attCalled = none) ∧
        ((o₁.attendance m₁.student_id ≠ .status 200 ∧
          o₁.attendance m₁.student_id ≠ .status 409) →
          out₂.attCalled = some m₁.student_id) := by
  obtain ⟨r₁, hr₁, hsid₁, hconf₁, hstat₁, hlkid₁, hlkc₁, hB₁, hE₁, hI₁, hth₁,
      hfid₁, hcache₁, hatt₁, hmk₁⟩ :=
    stage4_fresh_match o₁ s t₁ e₁ m₁ h₁ h₂ h₃ h₄
  have hatt₁' : r₁.attCalled = some m₁.student_id := by
    rw [hatt₁, if_neg hfresh]
  have hmkIff : m₁.student_id ∈ r₁.s.marked_attendance ↔
      (o₁.attendance m₁.student_id = .status 200 ∨
       o₁.attendance m₁.student_id = .status 409) := by
    rw [hmk₁]
    by_cases hc : m₁.student_id ∉ s.marked_attendance ∧
        (o₁.attendance m₁.student_id = .status 200 ∨
         o₁.attendance m₁.student_id = .status 409)
    · rw [if_pos hc]
      exact ⟨fun _ => hc.2, fun _ => Finset.mem_insert_self _ _⟩
    · rw [if_neg hc]
      exact ⟨fun hmem => absurd hmem hfresh, fun hor => absurd ⟨hfresh, hor⟩ hc⟩
  obtain ⟨r₂, hr₂, hsid₂, hconf₂, hstat₂, hlkid₂, hlkc₂, hB₂, hE₂, hI₂, hth₂,
      hfid₂, hcache₂, hatt₂, hmk₂⟩ :=
    stage4_fresh_match o₂ r₁.s t₂ e₂ m₂ h₁' h₂' h₃' h₄'
  refine ⟨r₁, hr₁, hatt₁', hmkIff, r₂, hr₂, ?_, ?_⟩
  · intro hok
    rw [hatt₂, if_pos (by rw [hsame]; exact hmkIff.mpr hok)]
  · rintro ⟨hn200, hn409⟩
    have hnotmem : m₂.student_id ∉ r₁.s.marked_attendance := by
      rw [hsame]
      intro hmem
      rcases hmkIff.mp hmem with h | h
      · exact hn200 h
      · exact hn409 h
    rw [hatt₂, if_neg hnotmem, hsame]

theorem c3_attendance_dedup_witness :
    ((7 : ℤ) ∉ scnState.marked_attendance) ∧
    ∃ out₁, stage4Identity
        ⟨fun _ => Except.ok none, fun _ => Except.ok (some ⟨7, 1/10⟩),
         fun _ => AttResp.status 200, fun _ => Except.ok (0, 0, 0)⟩
        scnState scnTrack = .ok out₁ ∧
      out₁.attCalled = some 7 ∧
      ((7 : ℤ) ∈ out₁.s.marked_attendance ↔
        (AttResp.status 200 = AttResp.status 200 ∨
         AttResp.status 200 = AttResp.status 409)) ∧
      ∃ out₂, stage4Identity (scnOracle (1/5)) out₁.s scnTrack = .ok out₂ ∧
        ((AttResp.status 200 = AttResp.status 200 ∨
          AttResp.status 200 = AttResp.status 409) → out₂.attCalled = none) ∧
        ((AttResp.status 200 ≠ AttResp.status 200 ∧
          AttResp.status 200 ≠ AttResp.status 409) →
          out₂.attCalled = some 7) :=
  ⟨Finset.not_mem_empty 7,
   c3_attendance_dedup scnState scnTrack scnTrack
     ⟨fun _ => Except.ok none, fun _ => Except.ok (some ⟨7, 1/10⟩),
      fun _ => AttResp.status 200, fun _ => Except.ok (0, 0, 0)⟩
     (scnOracle (1/5)) [1] [1] ⟨7, 1/10⟩ ⟨7, 1/5⟩
     rfl rfl rfl (by show (1/10 : ℚ) ≤ 45/100; norm_num)
     (Finset.not_mem_empty 7)
     rfl rfl rfl (by show (1/5 : ℚ) ≤ 45/100; norm_num) rfl⟩

theorem stepTrack_ok_of_noRaise (fh fw : ℤ) (o : TrackOracle) (s : PipeState)
    (t : Track) (h : o.NoRaise) : (stepTrack fh fw o s t).didRaise = false := by
  obtain ⟨hembed, hsearch, hpose⟩ := h
  by_cases hdeg : t.bbox.x2 ≤ t.bbox.x1 ∨ t.bbox.y2 ≤ t.bbox.y1
  · show (stepTrack fh fw o s t).didRaise = false
    unfold stepTrack
    dsimp only
    rw [if_pos hdeg]
    rfl
  · obtain ⟨s2, t2, hst3, _, _, _, _, _, _, _, _, _⟩ :=
      stage3Embed_ok o (clampCrop fh fw t.bbox) s
        { t with last_seen_frame := s.frame_id } hembed
    rcases stage4_cases o s2 t2 with ⟨e, u, hemb, hs, h4⟩ | ⟨r, h4, -, -, -, -, -, -⟩
    · obtain ⟨r', hr'⟩ := hsearch e
      rw [hr'] at hs
      exact absurd hs (by simp)
    · obtain ⟨p, hp⟩ := hpose (clampCrop fh fw t.bbox)
      obtain ⟨pp, py, pr⟩ := p
      unfold stepTrack
      dsimp only
      rw [if_neg hdeg, hst3]
      dsimp only
      rw [h4]
      dsimp only
      rw [hp]
      rfl

theorem processTracks_no_raise (fh fw : ℤ) (oT : ℕ → TrackOracle)
    (hT : ∀ i, (oT i).NoRaise) :
    ∀ (ts : List Track) (s : PipeState) (i : ℕ),
      (processTracks fh fw oT s ts i).2.2.2.2 = false := by
  intro ts
  induction ts with
  | nil => intro s i; rfl
  | cons t ts ih =>
      intro s i
      have hok := stepTrack_ok_of_noRaise fh fw (oT i) s t (hT i)
      rcases hstep : stepTrack fh fw (oT i) s t with ⟨s', t', out, att⟩ | ⟨s', t', att⟩
      · rw [processTracks, hstep]
        dsimp only
        exact ih s' (i + 1)
      · rw [hstep] at hok
        exact absurd hok (by simp [StepRes.didRaise])

/-- C7: an unexpected exception anywhere inside one `process` call (each
collaborator call site is a raise point) makes that call return an empty
result list instead of propagating, and a subsequent `process` call with
well-behaved collaborators — on whatever state the failed frame left —
does not raise and returns its normally computed results. -/
theorem c7_exception_isolation (fh fw : ℤ) (o o' : FrameOracle) (st : FullState)
    (h' : o'.NoRaise) :
    ((processBody fh fw o st).2.2.2 = true → (process fh fw o st).2.1 = []) ∧
    (processBody fh fw o' ((process fh fw o st).1)).2.2.2 = false ∧
    (process fh fw o' ((process fh fw o st).1)).2.1
      = (processBody fh fw o' ((process fh fw o st).1)).2.1 := by
  have hbody : ∀ st₂ : FullState, (processBody fh fw o' st₂).2.2.2 = false := by
    intro st₂
    obtain ⟨⟨d, hdet⟩, hper⟩ := h'
    unfold processBody
    rw [hdet]
    dsimp only
    rw [processTracks_no_raise fh fw o'.perTrack hper]
    simp
  refine ⟨?_, hbody _, ?_⟩
  · intro hr
    unfold process
    dsimp only
    rw [hr]
    simp
  · have hflag := hbody ((process fh fw o st).1)
    generalize hX : (process fh fw o st).1 = X at hflag ⊢
    unfold process
    dsimp only
    rw [hflag]
    simp

theorem c7_exception_isolation_witness :
    (processBody 100 100
        ⟨0, Except.error (), fun _ => scnOracle (1/10)⟩
        ⟨initTracker, initPipe⟩).2.2.2 = true ∧
    (process 100 100 ⟨0, Except.error (), fun _ => scnOracle (1/10)⟩
        ⟨initTracker, initPipe⟩).2.1 = [] :=
  ⟨rfl,
   (c7_exception_isolation 100 100
     ⟨0, Except.error (), fun _ => scnOracle (1/10)⟩
     ⟨0, Except.ok [], fun _ => scnOracle (1/10)⟩
     ⟨initTracker, initPipe⟩
     ⟨⟨[], rfl⟩, fun _ =>
       ⟨fun _ => ⟨none, rfl⟩, fun _ => ⟨some ⟨7, 1/10⟩, rfl⟩,
        fun _ => ⟨(0, 0, 0), rfl⟩⟩⟩).1 rfl⟩

end FacePass
